import Mathlib

/-!
Formal model of the Kademlia DHT core of the capacitor repository
(`dht/node.go`, `dht/routing.go`, `dht/discovery.go`).

NodeIDs (`[20]byte` in Go) are modelled as big-endian lists of byte values
(`Nat`s below 256); machine bytes are `Nat` with explicit bounds carried in
hypotheses.  Wall-clock timestamps (`time.Now()`) are an environment input,
passed explicitly as a `now : Nat` argument to the mutating operations.
Mutation is modelled by returning the updated value.
-/

namespace Capacitor

/-- `NodeID` (node.go): a 20-byte identifier, big-endian list of bytes. -/
abbrev NodeID := List Nat

/-- Well-formedness of a `NodeID` value: 20 bytes, each below 256. -/
def isNodeID (n : NodeID) : Prop := n.length = 20 ∧ ∀ x ∈ n, x < 256

instance (n : NodeID) : Decidable (isNodeID n) := by
  unfold isNodeID; infer_instance

/-- `NodeID.Distance` (node.go): bytewise XOR of two NodeIDs. -/
def NodeID.Distance (n other : NodeID) : NodeID :=
  List.zipWith (fun a b => a ^^^ b) n other

/-- Spec-side reading of a NodeID as an unsigned big-endian integer
("distances compared ... as unsigned big-endian integers"). -/
def toNat : NodeID → Nat
  | [] => 0
  | b :: bs => b * 256 ^ bs.length + toNat bs

/-- `Contact` (node.go): `{ID, Address, LastSeen}`. -/
structure Contact where
  id : NodeID
  address : String
  lastSeen : Nat
  deriving DecidableEq, Repr

/-- `Contact.Equal` (node.go): equality of contacts is NodeID equality only. -/
def Contact.Equal (c other : Contact) : Bool := decide (c.id = other.id)

/-- `K` (routing.go): capacity of a k-bucket. -/
def K : Nat := 20

/-- `Alpha` (routing.go): lookup concurrency parameter. -/
def Alpha : Nat := 3

/-- `KBucket` (routing.go): ordered contact list (front = least recently
seen), plus the informational `range` min/max and a last-update time. -/
structure KBucket where
  contacts : List Contact
  rangeMin : NodeID
  rangeMax : NodeID
  lastSeen : Nat
  deriving DecidableEq, Repr

/-- `NewKBucket` (routing.go): empty bucket, range min all `0xFF`,
range max all `0x00`. -/
def NewKBucket (now : Nat) : KBucket :=
  { contacts := []
    rangeMin := List.replicate 20 0xFF
    rangeMax := List.replicate 20 0x00
    lastSeen := now }

/-- `lessThan` (routing.go): byte-lexicographic comparison of NodeIDs
(the Go loop runs over the 20 bytes of both fixed-size arrays). -/
def lessThan : NodeID → NodeID → Bool
  | a :: as, b :: bs =>
    if a < b then true
    else if b < a then false
    else lessThan as bs
  | _, _ => false

/-- The front-to-back scan of `KBucket.AddContact`: drop the first element
whose NodeID equals the given contact's (it is moved to the back with its
value overwritten), keeping every other element in order. -/
def eraseFirstMatch : List Contact → Contact → List Contact
  | [], _ => []
  | e :: es, contact =>
    if e.Equal contact then es else e :: eraseFirstMatch es contact

/-- `KBucket.AddContact` (routing.go): if a contact with the same NodeID
exists, move it to the back and overwrite the stored value with the new
contact, returning true; otherwise append when the bucket holds fewer than
`K` contacts (updating the range bounds), returning true; otherwise reject,
returning false.  The returned Bool is the Go return value. -/
def KBucket.AddContact (kb : KBucket) (contact : Contact) (now : Nat) :
    Bool × KBucket :=
  if kb.contacts.any (fun e => e.Equal contact) then
    (true, { kb with
              contacts := eraseFirstMatch kb.contacts contact ++ [contact]
              lastSeen := now })
  else if kb.contacts.length < K then
    (true, { kb with
              contacts := kb.contacts ++ [contact]
              rangeMin := if lessThan contact.id kb.rangeMin then contact.id
                          else kb.rangeMin
              rangeMax := if lessThan kb.rangeMax contact.id then contact.id
                          else kb.rangeMax
              lastSeen := now })
  else (false, kb)

/-- `KBucket.GetContacts` (routing.go): up to `count` contacts taken from
the front (least-recently-seen end). -/
def KBucket.GetContacts (kb : KBucket) (count : Nat) : List Contact :=
  kb.contacts.take count

/-- `KBucket.Size` (routing.go). -/
def KBucket.Size (kb : KBucket) : Nat := kb.contacts.length

/-- `RoutingTable` (routing.go): a local ID and 160 k-buckets. -/
structure RoutingTable where
  localID : NodeID
  buckets : List KBucket
  deriving DecidableEq, Repr

/-- `NewRoutingTable` (routing.go): 160 fresh buckets. -/
def NewRoutingTable (localID : NodeID) (now : Nat) : RoutingTable :=
  { localID := localID, buckets := List.replicate 160 (NewKBucket now) }

/-- One step of the inner loop of `getBucketIndex`: the first `j < 8`
(from the most significant bit) with `(b >> (7-j)) & 1 ≠ 0`. -/
def bitAt (b j : Nat) : Bool := (b >>> (7 - j)) &&& 1 != 0

/-- Inner loop of `getBucketIndex`: first set bit of one byte, MSB first. -/
def byteFirstBit (b : Nat) : Option Nat :=
  (List.range 8).find? (fun j => bitAt b j)

/-- Outer loop of `getBucketIndex`: scan the distance bytes, returning
`i*8 + j` for the first byte `i` with a set bit `j`. -/
def firstSetBitAux : List Nat → Nat → Option Nat
  | [], _ => none
  | b :: bs, i =>
    match byteFirstBit b with
    | some j => some (i * 8 + j)
    | none => firstSetBitAux bs (i + 1)

/-- Bit `k` (counting from 0 at the most significant bit) of a big-endian
byte string: bit `k % 8` (MSB first) of byte `k / 8`. -/
def bitAtMSB (d : List Nat) (k : Nat) : Bool := bitAt (d.getD (k / 8) 0) (k % 8)

/-- `RoutingTable.getBucketIndex` (routing.go): index of the first set bit
of the XOR distance between the local ID and `id`; 159 when the distance
is all zero. -/
def RoutingTable.getBucketIndex (rt : RoutingTable) (id : NodeID) : Nat :=
  match firstSetBitAux (NodeID.Distance rt.localID id) 0 with
  | some k => k
  | none => 159

/-- `RoutingTable.AddContact` (routing.go): dispatch to the bucket at
`getBucketIndex contact.ID`; a rejected-full insert is silently dropped. -/
def RoutingTable.AddContact (rt : RoutingTable) (contact : Contact)
    (now : Nat) : RoutingTable :=
  let bucketIndex := rt.getBucketIndex contact.id
  { rt with
     buckets := rt.buckets.set bucketIndex
       ((rt.buckets.getD bucketIndex (NewKBucket now)).AddContact contact now).2 }

/-- First append of the loop body: "Check bucket to the left" — when
`bucketIndex - i >= 0` (in `int` arithmetic, i.e. `i ≤ bucketIndex`),
append up to `count - len(contacts)` contacts from that bucket. -/
def collectStep1 (buckets : List KBucket) (bucketIndex count i : Nat)
    (contacts : List Contact) : List Contact :=
  if i ≤ bucketIndex then
    contacts ++ (buckets.getD (bucketIndex - i) (NewKBucket 0)).GetContacts
      (count - contacts.length)
  else contacts

/-- Second append of the loop body: "Check bucket to the right" — when
`bucketIndex + i < 160` and still short of `count`. -/
def collectStep2 (buckets : List KBucket) (bucketIndex count i : Nat)
    (contacts : List Contact) : List Contact :=
  if bucketIndex + i < 160 ∧ contacts.length < count then
    contacts ++ (buckets.getD (bucketIndex + i) (NewKBucket 0)).GetContacts
      (count - contacts.length)
  else contacts

/-- The candidate-collection loop of `GetClosestContacts`: starting at
`i = 1`, while fewer than `count` contacts are collected and some index
`bucketIndex ± i` is in range, run the two appends of the loop body.  The
loop variable `i` only increases and the range is exhausted before `i`
reaches 160, so a fuel of 160 makes the structural recursion exact. -/
def collectLoop (buckets : List KBucket) (bucketIndex count : Nat) :
    Nat → Nat → List Contact → List Contact
  | 0, _, contacts => contacts
  | fuel + 1, i, contacts =>
    if contacts.length < count ∧ (i ≤ bucketIndex ∨ bucketIndex + i < 160) then
      collectLoop buckets bucketIndex count fuel (i + 1)
        (collectStep2 buckets bucketIndex count i
          (collectStep1 buckets bucketIndex count i contacts))
    else contacts

/-- The comparison `sort.Slice` is given in `GetClosestContacts`:
`lessThan (Distance i target) (Distance j target)`; sortedness of the
result is with respect to its non-strict counterpart. -/
def distLe (target : NodeID) (a b : Contact) : Prop :=
  ¬ lessThan (NodeID.Distance b.id target) (NodeID.Distance a.id target) = true

instance (target : NodeID) : DecidableRel (distLe target) := by
  unfold distLe; infer_instance

/-- `RoutingTable.GetClosestContacts` (routing.go): collect candidates from
the target's bucket and then outward neighbours, sort the pool by XOR
distance to the target, truncate to `count`.  `sort.Slice` is an
unspecified (not necessarily stable) correct sort for the given
comparison; it is modelled by insertion sort with the same comparison,
which agrees with it up to the order of distance ties — all the
properties proved below are tie-order independent. -/
def RoutingTable.GetClosestContacts (rt : RoutingTable) (target : NodeID)
    (count : Nat) : List Contact :=
  let bucketIndex := rt.getBucketIndex target
  let pool := collectLoop rt.buckets bucketIndex count 160 1
    ((rt.buckets.getD bucketIndex (NewKBucket 0)).GetContacts count)
  (pool.insertionSort (distLe target)).take count

/-- `RoutingTable.GetRandomIDFromBucket` (routing.go): the local ID with
the bit at `bucketIndex` (MSB-first) flipped; the Go `byte(...)` cast is
the `% 256`. -/
def RoutingTable.GetRandomIDFromBucket (rt : RoutingTable)
    (bucketIndex : Nat) : NodeID :=
  let byteIndex := bucketIndex / 8
  let bitIndex := bucketIndex % 8
  rt.localID.set byteIndex
    ((rt.localID.getD byteIndex 0) ^^^ ((1 <<< (7 - bitIndex)) % 256))

/-- `RoutingTable.Size` (routing.go): sum of all bucket occupancies. -/
def RoutingTable.Size (rt : RoutingTable) : Nat :=
  (rt.buckets.map KBucket.Size).sum

/-- The error result of `DHT.FindNode` (discovery.go).  The function
returns `fmt.Errorf("no contacts in routing table")` exactly when the seed
list `GetClosestContacts(targetID, Alpha)` is empty, before issuing any
RPC; every other control path (including every RPC failure, which is
swallowed) reaches the final `return nil`.  The concurrent query loop is
not modelled: no statement in it returns a non-nil error. -/
def FindNodeError (rt : RoutingTable) (targetID : NodeID) : Option String :=
  let closestNodes := rt.GetClosestContacts targetID Alpha
  if closestNodes.length = 0 then some ("no contacts in routing table")
  else none

/-- `fromHexChar` of Go's `encoding/hex`: value of one hex digit. -/
def fromHexChar (c : Char) : Option Nat :=
  if '0' ≤ c ∧ c ≤ '9' then some (c.toNat - '0'.toNat)
  else if 'a' ≤ c ∧ c ≤ 'f' then some (c.toNat - 'a'.toNat + 10)
  else if 'A' ≤ c ∧ c ≤ 'F' then some (c.toNat - 'A'.toNat + 10)
  else none

/-- Outcome of `hex.Decode(dst, src)` against a `dst` of capacity `cap`:
either the bytes written plus an error flag (invalid digit or odd length),
or a runtime panic (write past `dst`, possible only when more than `cap`
valid pairs are supplied). -/
inductive HexResult where
  | panicked : HexResult
  | decoded : List Nat → Bool → HexResult
  deriving DecidableEq, Repr

/-- Go `hex.Decode` loop: consume digit pairs, validating both digits
before writing byte `i`; stop with an error on an invalid digit, report an
error for a dangling odd digit, panic when writing past the capacity. -/
def hexDecodeAux (cap : Nat) : List Char → List Nat → HexResult
  | [], acc => .decoded acc false
  | [_], acc => .decoded acc true
  | c1 :: c2 :: rest, acc =>
    match fromHexChar c1, fromHexChar c2 with
    | some a, some b =>
      if acc.length < cap then hexDecodeAux cap rest (acc ++ [16 * a + b])
      else .panicked
    | _, _ => .decoded acc true

/-- Outcome of the `/dht/findnode` HTTP handler. -/
inductive HandlerResult where
  | clientError : Nat → String → HandlerResult
  | ok : List Contact → HandlerResult
  | panicked : HandlerResult
  deriving DecidableEq, Repr

/-- `DHT.handleFindNode` (discovery.go): 400 on a missing `target`
parameter (Go's `Query().Get` yields `""`), 400 when `hex.Decode` into the
20-byte `targetID` errors or writes `n ≠ 20` bytes, otherwise respond with
`GetClosestContacts(targetID, K)`.  The routing table is returned
alongside to record the handler's effect on it. -/
def handleFindNode (rt : RoutingTable) (targetStr : String) :
    HandlerResult × RoutingTable :=
  if targetStr = "" then (.clientError 400 ("Missing target parameter"), rt)
  else
    match hexDecodeAux 20 targetStr.toList [] with
    | .panicked => (.panicked, rt)
    | .decoded bytes err =>
      if err = true ∨ bytes.length ≠ 20 then
        (.clientError 400 ("Invalid target ID"), rt)
      else (.ok (rt.GetClosestContacts bytes K), rt)

/-- The operations a client can run against a routing table:
`AddContact`, and the read-only `GetClosestContacts`. -/
inductive TableOp where
  | add : Contact → Nat → TableOp
  | closest : NodeID → Nat → TableOp
  deriving Repr

/-- Effect of one operation on the table (`GetClosestContacts` only takes
read locks and never writes). -/
def applyOp (rt : RoutingTable) : TableOp → RoutingTable
  | .add c now => rt.AddContact c now
  | .closest _ _ => rt

/-- Effect of a sequence of operations on the table. -/
def applyOps (rt : RoutingTable) (ops : List TableOp) : RoutingTable :=
  ops.foldl applyOp rt

/-- Every contact an operation sequence inserts carries a valid NodeID. -/
def opValid : TableOp → Prop
  | .add c _ => isNodeID c.id
  | .closest _ _ => True

/-- Effect of a sequence of `AddContact` calls on one k-bucket (the other
bucket operations, `GetContacts` and `Size`, only take read locks and
return values without mutating). -/
def applyBucketAdds (kb : KBucket) (ops : List (Contact × Nat)) : KBucket :=
  ops.foldl (fun b p => (b.AddContact p.1 p.2).2) kb

/-- All contacts stored in the table, bucket by bucket. -/
def RoutingTable.allContacts (rt : RoutingTable) : List Contact :=
  rt.buckets.flatMap KBucket.contacts

/-- All-zero NodeID, used as a concrete local ID in closed instances. -/
def zeroID : NodeID := List.replicate 20 0

/-- `0x80` followed by 19 zero bytes: differs from `zeroID` in bit 0. -/
def oneBitID : NodeID := 128 :: List.replicate 19 0

/-- 19 zero bytes followed by `0x01`: differs from `zeroID` in bit 159. -/
def lastBitID : NodeID := List.replicate 19 0 ++ [1]

/-- A sample contact carrying `oneBitID`. -/
def sampleContactA : Contact := ⟨oneBitID, "10.0.0.1:4000", 0⟩

/-- A sample contact carrying `lastBitID`. -/
def sampleContactB : Contact := ⟨lastBitID, "10.0.0.2:4000", 0⟩

/-- A sample contact whose NodeID equals the local ID `zeroID`. -/
def sampleContactSelf : Contact := ⟨zeroID, "10.0.0.3:4000", 0⟩

/-- A fresh table with local ID `zeroID`. -/
def sampleTable : RoutingTable := NewRoutingTable zeroID 0

/-- A bucket already holding `sampleContactA`. -/
def sampleBucket : KBucket := ((NewKBucket 0).AddContact sampleContactA 0).2

/-- A contact with `sampleContactA`'s NodeID but different address and
timestamp. -/
def sampleContactA2 : Contact := ⟨oneBitID, "10.0.0.9:4000", 7⟩

/-- A target of 42 valid hex digits followed by a non-hex character: the
string is not valid hex, but `hex.Decode` validates its 21st digit pair
and writes past the 20-byte destination before reaching the bad
character. -/
def overflowTarget : String := String.mk (List.replicate 42 'a' ++ ['z'])

/-- The structural well-formedness a routing table acquires from
`NewRoutingTable` and keeps under every operation: 160 buckets, valid
NodeIDs, no NodeID stored twice in a bucket, and every contact sitting in
the bucket its NodeID indexes to. -/
structure WFTable (rt : RoutingTable) : Prop where
  bucketsLen : rt.buckets.length = 160
  localValid : isNodeID rt.localID
  idsValid : ∀ kb ∈ rt.buckets, ∀ c ∈ kb.contacts, isNodeID c.id
  nodups : ∀ kb ∈ rt.buckets, (kb.contacts.map Contact.id).Nodup
  placed : ∀ j, (h : j < rt.buckets.length) →
    ∀ c ∈ rt.buckets[j].contacts, rt.getBucketIndex c.id = j

/-! ### Facts about `lessThan` and the big-endian integer reading -/

theorem lessThan_irrefl (a : NodeID) : lessThan a a = false := by
  induction a with
  | nil => rfl
  | cons x xs ih => simp [lessThan, ih]

theorem lessThan_asymm {a b : NodeID} (h : lessThan a b = true) :
    lessThan b a = false := by
  induction a generalizing b with
  | nil => cases b <;> simp [lessThan] at h
  | cons x xs ih =>
    cases b with
    | nil => simp [lessThan] at h
    | cons y ys =>
      rcases Nat.lt_trichotomy x y with hlt | heq | hgt
      · have hyx : ¬ y < x := by omega
        simp [lessThan, hyx, hlt]
      · subst heq
        simp only [lessThan, Nat.lt_irrefl, if_false] at h ⊢
        exact ih h
      · have hxy : ¬ x < y := by omega
        simp [lessThan, hxy, hgt] at h

theorem lessThan_total {a b : NodeID} (h : a.length = b.length) :
    lessThan a b = true ∨ a = b ∨ lessThan b a = true := by
  induction a generalizing b with
  | nil =>
    cases b with
    | nil => exact Or.inr (Or.inl rfl)
    | cons _ _ => simp at h
  | cons x xs ih =>
    cases b with
    | nil => simp at h
    | cons y ys =>
      rcases Nat.lt_trichotomy x y with hlt | heq | hgt
      · exact Or.inl (by simp [lessThan, hlt])
      · subst heq
        rcases ih (by simpa using h) with h1 | h2 | h3
        · exact Or.inl (by simp [lessThan, h1])
        · exact Or.inr (Or.inl (by rw [h2]))
        · exact Or.inr (Or.inr (by simp [lessThan, h3]))
      · exact Or.inr (Or.inr (by simp [lessThan, hgt]))

theorem toNat_lt {l : NodeID} (h : ∀ x ∈ l, x < 256) :
    toNat l < 256 ^ l.length := by
  induction l with
  | nil => simp [toNat]
  | cons b bs ih =>
    have hb : b < 256 := h b (by simp)
    have hbs : toNat bs < 256 ^ bs.length := ih (fun x hx => h x (by simp [hx]))
    have h1 : b * 256 ^ bs.length + toNat bs < (b + 1) * 256 ^ bs.length := by
      have := Nat.add_lt_add_left hbs (b * 256 ^ bs.length)
      calc b * 256 ^ bs.length + toNat bs
          < b * 256 ^ bs.length + 256 ^ bs.length := this
        _ = (b + 1) * 256 ^ bs.length := by ring
    have h2 : (b + 1) * 256 ^ bs.length ≤ 256 * 256 ^ bs.length :=
      Nat.mul_le_mul_right _ (by omega)
    calc toNat (b :: bs) = b * 256 ^ bs.length + toNat bs := rfl
      _ < (b + 1) * 256 ^ bs.length := h1
      _ ≤ 256 * 256 ^ bs.length := h2
      _ = 256 ^ (b :: bs).length := by
          simp [List.length_cons, pow_succ]; ring

theorem lessThan_iff_toNat_lt {a b : NodeID} (hlen : a.length = b.length)
    (ha : ∀ x ∈ a, x < 256) (hb : ∀ x ∈ b, x < 256) :
    lessThan a b = true ↔ toNat a < toNat b := by
  induction a generalizing b with
  | nil =>
    cases b with
    | nil => simp [lessThan, toNat]
    | cons _ _ => simp at hlen
  | cons x xs ih =>
    cases b with
    | nil => simp at hlen
    | cons y ys =>
      have hlen2 : xs.length = ys.length := by simpa using hlen
      have hxs : ∀ u ∈ xs, u < 256 := fun u hu => ha u (by simp [hu])
      have hys : ∀ u ∈ ys, u < 256 := fun u hu => hb u (by simp [hu])
      have htx : toNat xs < 256 ^ ys.length := hlen2 ▸ toNat_lt hxs
      have hty : toNat ys < 256 ^ ys.length := toNat_lt hys
      rcases Nat.lt_trichotomy x y with hlt | heq | hgt
      · simp only [lessThan, if_pos hlt, true_iff]
        show x * 256 ^ xs.length + toNat xs < y * 256 ^ ys.length + toNat ys
        rw [hlen2]
        have : (x + 1) * 256 ^ ys.length ≤ y * 256 ^ ys.length :=
          Nat.mul_le_mul_right _ (by omega)
        calc x * 256 ^ ys.length + toNat xs
            < x * 256 ^ ys.length + 256 ^ ys.length := Nat.add_lt_add_left htx _
          _ = (x + 1) * 256 ^ ys.length := by ring
          _ ≤ y * 256 ^ ys.length := this
          _ ≤ y * 256 ^ ys.length + toNat ys := Nat.le_add_right _ _
      · subst heq
        simp only [lessThan, Nat.lt_irrefl, if_false]
        rw [ih hlen2 hxs hys]
        show toNat xs < toNat ys ↔
          x * 256 ^ xs.length + toNat xs < x * 256 ^ ys.length + toNat ys
        rw [hlen2]
        omega
      · have hxy : ¬ x < y := by omega
        have hge : toNat (y :: ys) ≤ toNat (x :: xs) := by
          show y * 256 ^ ys.length + toNat ys ≤ x * 256 ^ xs.length + toNat xs
          rw [hlen2]
          have hmul : (y + 1) * 256 ^ ys.length ≤ x * 256 ^ ys.length :=
            Nat.mul_le_mul_right _ (by omega)
          have hstep : y * 256 ^ ys.length + toNat ys
              < (y + 1) * 256 ^ ys.length := by
            calc y * 256 ^ ys.length + toNat ys
                < y * 256 ^ ys.length + 256 ^ ys.length :=
                  Nat.add_lt_add_left hty _
              _ = (y + 1) * 256 ^ ys.length := by ring
          exact le_trans (le_of_lt hstep)
            (le_trans hmul (Nat.le_add_right _ _))
        simp only [lessThan, if_pos hgt, if_neg hxy]
        constructor
        · intro hfalse; simp at hfalse
        · intro hlt2; exact absurd hlt2 (Nat.not_lt.mpr hge)

/-! ### Facts about the XOR distance -/

theorem Distance_comm (a b : NodeID) :
    NodeID.Distance a b = NodeID.Distance b a := by
  unfold NodeID.Distance
  induction a generalizing b with
  | nil => cases b <;> rfl
  | cons x xs ih =>
    cases b with
    | nil => rfl
    | cons y ys => simp [List.zipWith, Nat.xor_comm, ih]

theorem Distance_self (a : NodeID) :
    NodeID.Distance a a = List.replicate a.length 0 := by
  induction a with
  | nil => rfl
  | cons x xs ih =>
    show (x ^^^ x) :: NodeID.Distance xs xs = 0 :: List.replicate xs.length 0
    rw [Nat.xor_self, ih]

theorem Distance_length (a b : NodeID) :
    (NodeID.Distance a b).length = min a.length b.length :=
  List.length_zipWith ..

theorem Distance_bytes_lt {a b : NodeID} (ha : ∀ x ∈ a, x < 256)
    (hb : ∀ x ∈ b, x < 256) : ∀ x ∈ NodeID.Distance a b, x < 256 := by
  induction a generalizing b with
  | nil => simp [NodeID.Distance]
  | cons x xs ih =>
    cases b with
    | nil => simp [NodeID.Distance]
    | cons y ys =>
      intro u hu
      simp only [NodeID.Distance, List.zipWith_cons_cons, List.mem_cons] at hu
      rcases hu with hu | hu
      · subst hu
        have h256 : (256 : Nat) = 2 ^ 8 := by norm_num
        rw [h256]
        exact Nat.xor_lt_two_pow (h256 ▸ ha x (by simp)) (h256 ▸ hb y (by simp))
      · exact ih (fun u hu => ha u (by simp [hu])) (fun u hu => hb u (by simp [hu])) u hu

theorem xor_le_add (x y : Nat) : x ^^^ y ≤ x + y := by
  induction x using Nat.strong_induction_on generalizing y with
  | _ x ih =>
    rcases Nat.eq_zero_or_pos x with hx | hx
    · subst hx; simp
    · have hlt : x / 2 < x := Nat.div_lt_self hx (by omega)
      have h2 := ih (x / 2) hlt (y / 2)
      rw [← Nat.xor_div_two] at h2
      have hmod : (x ^^^ y) % 2 = (x + y) % 2 := Nat.xor_mod_two_eq
      omega

theorem toNat_zipWith_xor_le (u v : List Nat) (h : u.length = v.length) :
    toNat (List.zipWith (fun a b => a ^^^ b) u v) ≤ toNat u + toNat v := by
  induction u generalizing v with
  | nil => simp [toNat]
  | cons x xs ih =>
    cases v with
    | nil => simp at h
    | cons y ys =>
      have hlen : xs.length = ys.length := by simpa using h
      have hzl : (List.zipWith (fun a b => a ^^^ b) xs ys).length = ys.length := by
        simp [List.length_zipWith, hlen]
      show (x ^^^ y) * 256 ^ (List.zipWith (fun a b => a ^^^ b) xs ys).length
          + toNat (List.zipWith (fun a b => a ^^^ b) xs ys)
        ≤ x * 256 ^ xs.length + toNat xs + (y * 256 ^ ys.length + toNat ys)
      rw [hzl, hlen]
      have h1 : (x ^^^ y) * 256 ^ ys.length ≤ (x + y) * 256 ^ ys.length :=
        Nat.mul_le_mul_right _ (xor_le_add x y)
      have h2 := ih ys hlen
      calc (x ^^^ y) * 256 ^ ys.length + toNat (List.zipWith (fun a b => a ^^^ b) xs ys)
          ≤ (x + y) * 256 ^ ys.length + (toNat xs + toNat ys) :=
            Nat.add_le_add h1 h2
        _ = x * 256 ^ ys.length + toNat xs + (y * 256 ^ ys.length + toNat ys) := by
            ring

theorem Distance_decompose (a b c : NodeID) (hab : a.length = b.length)
    (hbc : b.length = c.length) :
    NodeID.Distance a c =
      List.zipWith (fun x y => x ^^^ y) (NodeID.Distance a b)
        (NodeID.Distance b c) := by
  induction a generalizing b c with
  | nil =>
    cases b with
    | nil => cases c <;> rfl
    | cons _ _ => simp at hab
  | cons x xs ih =>
    cases b with
    | nil => simp at hab
    | cons y ys =>
      cases c with
      | nil => simp at hbc
      | cons z zs =>
        have h1 : xs.length = ys.length := by simpa using hab
        have h2 : ys.length = zs.length := by simpa using hbc
        simp only [NodeID.Distance, List.zipWith_cons_cons, List.cons.injEq]
        constructor
        · calc x ^^^ z = x ^^^ ((y ^^^ y) ^^^ z) := by rw [Nat.xor_self, Nat.zero_xor]
            _ = (x ^^^ y) ^^^ (y ^^^ z) := by
                rw [Nat.xor_assoc y y z, ← Nat.xor_assoc x y (y ^^^ z)]
        · exact ih ys zs h1 h2

/-! ### Facts about the MSB-first bit scan of `getBucketIndex` -/

theorem bitAt_zero (j : Nat) : bitAt 0 j = false := by
  simp [bitAt]

theorem byteFirstBit_zero : byteFirstBit 0 = none := by decide

theorem byteFirstBit_some_lt {b j : Nat} (h : byteFirstBit b = some j) :
    j < 8 := by
  have := List.mem_of_find?_eq_some h
  simpa using this

theorem byteFirstBit_some_bit {b j : Nat} (h : byteFirstBit b = some j) :
    bitAt b j = true := List.find?_some h

set_option maxRecDepth 100000 in
theorem byteFirstBit_min : ∀ b, b < 256 → ∀ j, j < 8 →
    byteFirstBit b = some j → ∀ j2, j2 < j → bitAt b j2 = false := by
  decide

set_option maxRecDepth 100000 in
theorem byteFirstBit_none_eq_zero : ∀ b, b < 256 →
    byteFirstBit b = none → b = 0 := by
  decide

theorem byteFirstBit_pow {r : Nat} (hr : r < 8) :
    byteFirstBit ((1 <<< (7 - r)) % 256) = some r := by
  interval_cases r <;> decide

theorem bitAtMSB_cons_low (b : Nat) (bs : List Nat) {j : Nat} (hj : j < 8) :
    bitAtMSB (b :: bs) j = bitAt b j := by
  unfold bitAtMSB
  rw [Nat.div_eq_of_lt hj, Nat.mod_eq_of_lt hj]
  rfl

theorem bitAtMSB_cons_high (b : Nat) (bs : List Nat) (j : Nat) :
    bitAtMSB (b :: bs) (j + 8) = bitAtMSB bs j := by
  unfold bitAtMSB
  have h1 : (j + 8) / 8 = j / 8 + 1 := by omega
  have h2 : (j + 8) % 8 = j % 8 := by omega
  rw [h1, h2]
  rfl

theorem firstSetBitAux_shift (d : List Nat) (s : Nat) :
    firstSetBitAux d (s + 1) = (firstSetBitAux d s).map (· + 8) := by
  induction d generalizing s with
  | nil => rfl
  | cons b bs ih =>
    simp only [firstSetBitAux]
    cases hb : byteFirstBit b with
    | some j =>
      show some ((s + 1) * 8 + j) = some (s * 8 + j + 8)
      congr 1
      omega
    | none => exact ih (s + 1)

theorem firstSetBitAux_lt {d : List Nat} {s k : Nat}
    (h : firstSetBitAux d s = some k) : k < (s + d.length) * 8 := by
  induction d generalizing s k with
  | nil => simp [firstSetBitAux] at h
  | cons b bs ih =>
    simp only [firstSetBitAux] at h
    cases hb : byteFirstBit b with
    | some j =>
      rw [hb] at h
      have hj : j < 8 := byteFirstBit_some_lt hb
      have hk : s * 8 + j = k := by simpa using h
      simp only [List.length_cons]
      omega
    | none =>
      rw [hb] at h
      have := ih h
      simp only [List.length_cons]
      omega

theorem firstSetBitAux_of_all_zero {d : List Nat} (h : ∀ x ∈ d, x = 0) :
    ∀ s, firstSetBitAux d s = none := by
  induction d with
  | nil => intro s; rfl
  | cons b bs ih =>
    intro s
    have hb : b = 0 := h b (by simp)
    subst hb
    simp only [firstSetBitAux, byteFirstBit_zero]
    exact ih (fun x hx => h x (by simp [hx])) (s + 1)

theorem firstSetBit_some_spec {d : List Nat} (hd : ∀ x ∈ d, x < 256) {k : Nat}
    (h : firstSetBitAux d 0 = some k) :
    bitAtMSB d k = true ∧ ∀ j, j < k → bitAtMSB d j = false := by
  induction d generalizing k with
  | nil => simp [firstSetBitAux] at h
  | cons b bs ih =>
    simp only [firstSetBitAux] at h
    cases hb : byteFirstBit b with
    | some j =>
      rw [hb] at h
      have hj8 : j < 8 := byteFirstBit_some_lt hb
      have hk : k = j := by simpa using h.symm
      subst hk
      refine ⟨?_, ?_⟩
      · rw [bitAtMSB_cons_low b bs hj8]
        exact byteFirstBit_some_bit hb
      · intro i hi
        have hi8 : i < 8 := by omega
        rw [bitAtMSB_cons_low b bs hi8]
        exact byteFirstBit_min b (hd b (by simp)) k hj8 hb i hi
    | none =>
      rw [hb] at h
      rw [firstSetBitAux_shift bs 0] at h
      cases hk0 : firstSetBitAux bs 0 with
      | none => rw [hk0] at h; simp at h
      | some k0 =>
        rw [hk0] at h
        have hkk : k = k0 + 8 := by simpa using h.symm
        subst hkk
        have hbsv : ∀ x ∈ bs, x < 256 := fun x hx => hd x (by simp [hx])
        obtain ⟨hbit, hmin⟩ := ih hbsv hk0
        have hb0 : b = 0 := byteFirstBit_none_eq_zero b (hd b (by simp)) hb
        subst hb0
        refine ⟨?_, ?_⟩
        · rw [bitAtMSB_cons_high 0 bs k0]
          exact hbit
        · intro i hi
          rcases Nat.lt_or_ge i 8 with hi8 | hi8
          · rw [bitAtMSB_cons_low 0 bs hi8]
            exact bitAt_zero i
          · obtain ⟨i0, rfl⟩ : ∃ i0, i = i0 + 8 := ⟨i - 8, by omega⟩
            rw [bitAtMSB_cons_high 0 bs i0]
            exact hmin i0 (by omega)

theorem firstSetBit_none_spec {d : List Nat} (hd : ∀ x ∈ d, x < 256)
    (h : firstSetBitAux d 0 = none) : ∀ x ∈ d, x = 0 := by
  induction d with
  | nil => simp
  | cons b bs ih =>
    simp only [firstSetBitAux] at h
    cases hb : byteFirstBit b with
    | some j => rw [hb] at h; simp at h
    | none =>
      rw [hb] at h
      rw [firstSetBitAux_shift bs 0] at h
      have h0 : firstSetBitAux bs 0 = none := by
        cases hk : firstSetBitAux bs 0 with
        | none => rfl
        | some k0 => rw [hk] at h; simp at h
      intro x hx
      rcases List.mem_cons.mp hx with hx | hx
      · subst hx
        exact byteFirstBit_none_eq_zero x (hd x (by simp)) hb
      · exact ih (fun u hu => hd u (by simp [hu])) h0 x hx

/-! ### Facts about `getBucketIndex` -/

theorem getBucketIndex_lt (rt : RoutingTable) (id : NodeID)
    (hl : rt.localID.length = 20) (hi : id.length = 20) :
    rt.getBucketIndex id < 160 := by
  unfold RoutingTable.getBucketIndex
  cases h : firstSetBitAux (NodeID.Distance rt.localID id) 0 with
  | none => show (159 : Nat) < 160; omega
  | some k =>
    show k < 160
    have := firstSetBitAux_lt h
    rw [Distance_length, hl, hi] at this
    simpa using this

theorem getBucketIndex_self (rt : RoutingTable) (id : NodeID)
    (h : id = rt.localID) : rt.getBucketIndex id = 159 := by
  subst h
  unfold RoutingTable.getBucketIndex
  rw [Distance_self, firstSetBitAux_of_all_zero (by simp +contextual) 0]

/-! ### Facts about `KBucket.AddContact` -/

theorem any_Equal_iff (l : List Contact) (c : Contact) :
    l.any (fun e => e.Equal c) = true ↔ ∃ e ∈ l, e.id = c.id := by
  simp [List.any_eq_true, Contact.Equal]

theorem eraseFirstMatch_sublist (l : List Contact) (c : Contact) :
    (eraseFirstMatch l c).Sublist l := by
  induction l with
  | nil => simp [eraseFirstMatch]
  | cons e es ih =>
    simp only [eraseFirstMatch]
    split
    · exact (List.sublist_cons_self e es)
    · exact List.Sublist.cons₂ e ih

theorem eraseFirstMatch_length {l : List Contact} {c : Contact}
    (h : ∃ e ∈ l, e.id = c.id) :
    (eraseFirstMatch l c).length + 1 = l.length := by
  induction l with
  | nil => simp at h
  | cons e es ih =>
    simp only [eraseFirstMatch]
    split
    · simp
    · rename_i hne
      have : ¬ e.id = c.id := by
        intro hid
        exact hne (by simp [Contact.Equal, hid])
      have hes : ∃ x ∈ es, x.id = c.id := by
        rcases h with ⟨x, hx, hxid⟩
        rcases List.mem_cons.mp hx with rfl | hx2
        · exact absurd hxid this
        · exact ⟨x, hx2, hxid⟩
      have hrec := ih hes
      simp only [List.length_cons]
      omega

theorem eraseFirstMatch_filter_ne (l : List Contact) (c : Contact) :
    (eraseFirstMatch l c).filter (fun e => !(e.Equal c))
      = l.filter (fun e => !(e.Equal c)) := by
  induction l with
  | nil => rfl
  | cons e es ih =>
    simp only [eraseFirstMatch]
    split
    · rename_i heq
      simp [List.filter_cons, heq]
    · rename_i hne
      have hb : e.Equal c = false := by
        cases h : e.Equal c
        · rfl
        · exact absurd h hne
      simp [List.filter_cons, hb, ih]

theorem id_not_mem_eraseFirstMatch {l : List Contact} {c : Contact}
    (hnodup : (l.map Contact.id).Nodup) :
    c.id ∉ (eraseFirstMatch l c).map Contact.id := by
  induction l with
  | nil => simp [eraseFirstMatch]
  | cons e es ih =>
    simp only [List.map_cons, List.nodup_cons] at hnodup
    simp only [eraseFirstMatch]
    split
    · rename_i heq
      have : e.id = c.id := by simpa [Contact.Equal] using heq
      rw [← this]
      exact hnodup.1
    · rename_i hne
      have hne2 : e.id ≠ c.id := by
        intro hid
        exact hne (by simp [Contact.Equal, hid])
      simp only [List.map_cons, List.mem_cons]
      rintro (h | h)
      · exact hne2 h.symm
      · exact ih hnodup.2 h

theorem nodup_eraseFirstMatch_append {l : List Contact} {c : Contact}
    (hnodup : (l.map Contact.id).Nodup) :
    ((eraseFirstMatch l c ++ [c]).map Contact.id).Nodup := by
  rw [List.map_append]
  apply List.Nodup.append
  · exact ((eraseFirstMatch_sublist l c).map Contact.id).nodup hnodup
  · simp
  · intro x hx
    simp only [List.map_cons, List.map_nil, List.mem_singleton]
    intro hxc
    subst hxc
    exact absurd hx (id_not_mem_eraseFirstMatch hnodup)

theorem nodup_append_new {l : List Contact} {c : Contact}
    (hnodup : (l.map Contact.id).Nodup)
    (hnew : ¬ ∃ e ∈ l, e.id = c.id) :
    ((l ++ [c]).map Contact.id).Nodup := by
  rw [List.map_append]
  apply List.Nodup.append hnodup (by simp)
  intro x hx
  simp only [List.map_cons, List.map_nil, List.mem_singleton]
  intro hxc
  subst hxc
  rcases List.mem_map.mp hx with ⟨e, he, heid⟩
  exact hnew ⟨e, he, heid⟩

theorem addContact_of_mem {kb : KBucket} {c : Contact} (now : Nat)
    (h : ∃ e ∈ kb.contacts, e.id = c.id) :
    kb.AddContact c now =
      (true, { kb with contacts := eraseFirstMatch kb.contacts c ++ [c]
                       lastSeen := now }) := by
  unfold KBucket.AddContact
  rw [if_pos ((any_Equal_iff kb.contacts c).mpr h)]

theorem addContact_of_new_room {kb : KBucket} {c : Contact} (now : Nat)
    (h : ¬ ∃ e ∈ kb.contacts, e.id = c.id)
    (hlen : kb.contacts.length < K) :
    kb.AddContact c now =
      (true, { kb with
                contacts := kb.contacts ++ [c]
                rangeMin := if lessThan c.id kb.rangeMin then c.id
                            else kb.rangeMin
                rangeMax := if lessThan kb.rangeMax c.id then c.id
                            else kb.rangeMax
                lastSeen := now }) := by
  unfold KBucket.AddContact
  have hne : ¬ kb.contacts.any (fun e => e.Equal c) = true :=
    fun hc => h ((any_Equal_iff _ _).mp hc)
  rw [if_neg hne, if_pos hlen]

theorem addContact_of_new_full {kb : KBucket} {c : Contact} (now : Nat)
    (h : ¬ ∃ e ∈ kb.contacts, e.id = c.id)
    (hlen : ¬ kb.contacts.length < K) :
    kb.AddContact c now = (false, kb) := by
  unfold KBucket.AddContact
  have hne : ¬ kb.contacts.any (fun e => e.Equal c) = true :=
    fun hc => h ((any_Equal_iff _ _).mp hc)
  rw [if_neg hne, if_neg hlen]

theorem addContact_size_le {kb : KBucket} (c : Contact) (now : Nat)
    (h : kb.contacts.length ≤ K) :
    ((kb.AddContact c now).2).contacts.length ≤ K := by
  by_cases hmem : ∃ e ∈ kb.contacts, e.id = c.id
  · rw [addContact_of_mem now hmem]
    have := eraseFirstMatch_length (c := c) hmem
    simp only [List.length_append, List.length_cons, List.length_nil]
    omega
  · by_cases hlen : kb.contacts.length < K
    · rw [addContact_of_new_room now hmem hlen]
      simp only [List.length_append, List.length_cons, List.length_nil]
      omega
    · rw [addContact_of_new_full now hmem hlen]
      exact h

theorem applyBucketAdds_size_le (ops : List (Contact × Nat)) :
    ∀ kb : KBucket, kb.contacts.length ≤ K →
      (applyBucketAdds kb ops).contacts.length ≤ K := by
  induction ops with
  | nil => intro kb h; exact h
  | cons p ps ih =>
    intro kb h
    exact ih ((kb.AddContact p.1 p.2).2) (addContact_size_le p.1 p.2 h)

/-- NodeIDs present in a bucket after an insert: the new one, or one that
was already there. -/
theorem addContact_mem_ids {kb : KBucket} {c : Contact} {now : Nat}
    {e : Contact} (he : e ∈ ((kb.AddContact c now).2).contacts) :
    e ∈ kb.contacts ∨ e = c := by
  by_cases hmem : ∃ x ∈ kb.contacts, x.id = c.id
  · rw [addContact_of_mem now hmem] at he
    simp only [List.mem_append, List.mem_singleton] at he
    rcases he with he | he
    · exact Or.inl ((eraseFirstMatch_sublist kb.contacts c).mem he)
    · exact Or.inr he
  · by_cases hlen : kb.contacts.length < K
    · rw [addContact_of_new_room now hmem hlen] at he
      simpa using he
    · rw [addContact_of_new_full now hmem hlen] at he
      exact Or.inl he

theorem addContact_nodup {kb : KBucket} (c : Contact) (now : Nat)
    (h : (kb.contacts.map Contact.id).Nodup) :
    (((kb.AddContact c now).2).contacts.map Contact.id).Nodup := by
  by_cases hmem : ∃ x ∈ kb.contacts, x.id = c.id
  · rw [addContact_of_mem now hmem]
    exact nodup_eraseFirstMatch_append h
  · by_cases hlen : kb.contacts.length < K
    · rw [addContact_of_new_room now hmem hlen]
      exact nodup_append_new h hmem
    · rw [addContact_of_new_full now hmem hlen]
      exact h

/-! ### Preservation of table well-formedness -/

theorem getBucketIndex_addContact (rt : RoutingTable) (c : Contact)
    (now : Nat) (id : NodeID) :
    (rt.AddContact c now).getBucketIndex id = rt.getBucketIndex id := rfl

theorem WFTable_new {localID : NodeID} (h : isNodeID localID) (now : Nat) :
    WFTable (NewRoutingTable localID now) := by
  refine ⟨by simp [NewRoutingTable], h, ?_, ?_, ?_⟩
  · intro kb hkb c hc
    have : kb = NewKBucket now := List.eq_of_mem_replicate hkb
    subst this
    simp [NewKBucket] at hc
  · intro kb hkb
    have : kb = NewKBucket now := List.eq_of_mem_replicate hkb
    subst this
    simp [NewKBucket]
  · intro j hj c hc
    have hmem : (NewRoutingTable localID now).buckets[j]
        ∈ (NewRoutingTable localID now).buckets := List.getElem_mem hj
    have hkb : (NewRoutingTable localID now).buckets[j] = NewKBucket now :=
      List.eq_of_mem_replicate hmem
    rw [hkb] at hc
    simp [NewKBucket] at hc

theorem WFTable_addContact {rt : RoutingTable} (hWF : WFTable rt)
    {c : Contact} (hc : isNodeID c.id) (now : Nat) :
    WFTable (rt.AddContact c now) := by
  have hidx : rt.getBucketIndex c.id < 160 :=
    getBucketIndex_lt rt c.id hWF.localValid.1 hc.1
  have hidx2 : rt.getBucketIndex c.id < rt.buckets.length := by
    rw [hWF.bucketsLen]; exact hidx
  have hbucket : rt.buckets.getD (rt.getBucketIndex c.id) (NewKBucket now)
      = rt.buckets[rt.getBucketIndex c.id] :=
    List.getD_eq_getElem rt.buckets (NewKBucket now) hidx2
  refine ⟨?_, hWF.localValid, ?_, ?_, ?_⟩
  · show (rt.buckets.set ..).length = 160
    rw [List.length_set]
    exact hWF.bucketsLen
  · intro kb hkb e he
    rcases List.mem_or_eq_of_mem_set hkb with hold | hnew
    · exact hWF.idsValid kb hold e he
    · subst hnew
      rw [hbucket] at he
      rcases addContact_mem_ids he with he2 | he2
      · exact hWF.idsValid _ (List.getElem_mem hidx2) e he2
      · subst he2; exact hc
  · intro kb hkb
    rcases List.mem_or_eq_of_mem_set hkb with hold | hnew
    · exact hWF.nodups kb hold
    · subst hnew
      rw [hbucket]
      exact addContact_nodup c now (hWF.nodups _ (List.getElem_mem hidx2))
  · intro j hj e he
    rw [getBucketIndex_addContact]
    have hj2 : j < rt.buckets.length := by
      have hlen : (rt.AddContact c now).buckets.length = rt.buckets.length :=
        List.length_set ..
      omega
    simp only [RoutingTable.AddContact, List.getElem_set] at he
    by_cases hji : rt.getBucketIndex c.id = j
    · rw [if_pos hji] at he
      subst hji
      rw [hbucket] at he
      rcases addContact_mem_ids he with he2 | he2
      · exact hWF.placed _ hj2 e he2
      · subst he2; rfl
    · rw [if_neg hji] at he
      exact hWF.placed _ hj2 e he

theorem WFTable_applyOp {rt : RoutingTable} (hWF : WFTable rt)
    {op : TableOp} (hop : opValid op) : WFTable (applyOp rt op) := by
  cases op with
  | add c now => exact WFTable_addContact hWF hop now
  | closest _ _ => exact hWF

theorem WFTable_applyOps {ops : List TableOp}
    (hops : ∀ op ∈ ops, opValid op) :
    ∀ {rt : RoutingTable}, WFTable rt → WFTable (applyOps rt ops) := by
  induction ops with
  | nil => intro rt h; exact h
  | cons op ops2 ih =>
    intro rt h
    exact ih (fun o ho => hops o (by simp [ho]))
      (WFTable_applyOp h (hops op (by simp)))

/-! ### Sortedness of insertion sort under member-restricted hypotheses

`distLe` is a total preorder only on contacts whose distances have equal
length, so the library's globally-quantified instances do not apply; these
two lemmas redo the standard argument with hypotheses restricted to the
list's members. -/

theorem sorted_orderedInsert_mem {α : Type} {r : α → α → Prop}
    [DecidableRel r] (a : α) (l : List α)
    (htot : ∀ b ∈ l, r a b ∨ r b a)
    (htrans : ∀ b ∈ l, ∀ x ∈ l, r a b → r b x → r a x)
    (hs : List.Pairwise r l) :
    List.Pairwise r (List.orderedInsert r a l) := by
  induction l with
  | nil => simp
  | cons b t ih =>
    by_cases hab : r a b
    · rw [List.orderedInsert, if_pos hab]
      refine List.Pairwise.cons ?_ hs
      intro x hx
      rcases List.mem_cons.mp hx with rfl | hx2
      · exact hab
      · exact htrans b (by simp) x (by simp [hx2]) hab
          ((List.pairwise_cons.mp hs).1 x hx2)
    · rw [List.orderedInsert, if_neg hab]
      refine List.Pairwise.cons ?_ ?_
      · intro x hx
        have hx2 : x ∈ a :: t := (List.perm_orderedInsert r a t).mem_iff.mp hx
        rcases List.mem_cons.mp hx2 with rfl | hx3
        · rcases htot b (by simp) with h | h
          · exact absurd h hab
          · exact h
        · exact (List.pairwise_cons.mp hs).1 x hx3
      · exact ih (fun x hx => htot x (by simp [hx]))
          (fun x hx y hy => htrans x (by simp [hx]) y (by simp [hy]))
          (List.pairwise_cons.mp hs).2

theorem sorted_insertionSort_mem {α : Type} {r : α → α → Prop}
    [DecidableRel r] (l : List α)
    (htot : ∀ a ∈ l, ∀ b ∈ l, r a b ∨ r b a)
    (htrans : ∀ a ∈ l, ∀ b ∈ l, ∀ c ∈ l, r a b → r b c → r a c) :
    List.Pairwise r (l.insertionSort r) := by
  induction l with
  | nil => simp
  | cons a t ih =>
    rw [List.insertionSort]
    have hmem : ∀ x ∈ t.insertionSort r, x ∈ a :: t := fun x hx =>
      by simp [(List.perm_insertionSort r t).mem_iff.mp hx]
    refine sorted_orderedInsert_mem a (t.insertionSort r) ?_ ?_ ?_
    · exact fun b hb => htot a (by simp) b (hmem b hb)
    · exact fun b hb x hx => htrans a (by simp) b (hmem b hb) x (hmem x hx)
    · exact ih (fun x hx b hb => htot x (by simp [hx]) b (by simp [hb]))
        (fun x hx b hb c hc =>
          htrans x (by simp [hx]) b (by simp [hb]) c (by simp [hc]))

/-! ### The candidate pool of `GetClosestContacts` -/

theorem chunk_sublist (rt : RoutingTable) {j : Nat}
    (hj2 : j < rt.buckets.length) (m : Nat) :
    ((rt.buckets.getD j (NewKBucket 0)).GetContacts m).Sublist
      rt.buckets[j].contacts := by
  rw [List.getD_eq_getElem rt.buckets (NewKBucket 0) hj2]
  exact List.take_sublist ..

theorem chunk_nodup {rt : RoutingTable} (hWF : WFTable rt) {j : Nat}
    (hj : j < 160) (m : Nat) :
    (((rt.buckets.getD j (NewKBucket 0)).GetContacts m).map Contact.id).Nodup := by
  have hj2 : j < rt.buckets.length := by rw [hWF.bucketsLen]; exact hj
  exact ((chunk_sublist rt hj2 m).map Contact.id).nodup
    (hWF.nodups _ (List.getElem_mem hj2))

theorem chunk_mem {rt : RoutingTable} (hWF : WFTable rt) {j : Nat}
    (hj : j < 160) (m : Nat) :
    ∀ e ∈ (rt.buckets.getD j (NewKBucket 0)).GetContacts m,
      e ∈ rt.allContacts := by
  have hj2 : j < rt.buckets.length := by rw [hWF.bucketsLen]; exact hj
  intro e he
  have : e ∈ rt.buckets[j].contacts := (chunk_sublist rt hj2 m).mem he
  exact List.mem_flatMap.mpr ⟨rt.buckets[j], List.getElem_mem hj2, this⟩

theorem chunk_placed {rt : RoutingTable} (hWF : WFTable rt) {j : Nat}
    (hj : j < 160) (m : Nat) :
    ∀ e ∈ (rt.buckets.getD j (NewKBucket 0)).GetContacts m,
      rt.getBucketIndex e.id = j := by
  have hj2 : j < rt.buckets.length := by rw [hWF.bucketsLen]; exact hj
  intro e he
  exact hWF.placed j hj2 e ((chunk_sublist rt hj2 m).mem he)

theorem pool_extend {rt : RoutingTable} (hWF : WFTable rt) {j : Nat}
    (hj : j < 160) (m : Nat) {pool : List Contact}
    (hnd : (pool.map Contact.id).Nodup)
    (hmem : ∀ e ∈ pool, e ∈ rt.allContacts)
    (hnotj : ∀ e ∈ pool, rt.getBucketIndex e.id ≠ j) :
    (((pool ++ (rt.buckets.getD j (NewKBucket 0)).GetContacts m).map
        Contact.id).Nodup)
    ∧ (∀ e ∈ pool ++ (rt.buckets.getD j (NewKBucket 0)).GetContacts m,
        e ∈ rt.allContacts)
    ∧ (∀ e ∈ pool ++ (rt.buckets.getD j (NewKBucket 0)).GetContacts m,
        e ∈ pool ∨ rt.getBucketIndex e.id = j) := by
  refine ⟨?_, ?_, ?_⟩
  · rw [List.map_append]
    refine List.Nodup.append hnd (chunk_nodup hWF hj m) ?_
    intro x hx hx2
    rcases List.mem_map.mp hx with ⟨e1, he1, he1id⟩
    rcases List.mem_map.mp hx2 with ⟨e2, he2, he2id⟩
    have hplaced := chunk_placed hWF hj m e2 he2
    have hid : e1.id = e2.id := by rw [he1id, he2id]
    rw [← hid] at hplaced
    exact hnotj e1 he1 hplaced
  · intro e he
    rcases List.mem_append.mp he with he2 | he2
    · exact hmem e he2
    · exact chunk_mem hWF hj m e he2
  · intro e he
    rcases List.mem_append.mp he with he2 | he2
    · exact Or.inl he2
    · exact Or.inr (chunk_placed hWF hj m e he2)

theorem step1_inv {rt : RoutingTable} (hWF : WFTable rt) {k : Nat}
    (hk : k < 160) (count : Nat) {i : Nat} (hi : 1 ≤ i)
    {pool : List Contact}
    (hnd : (pool.map Contact.id).Nodup)
    (hmem : ∀ e ∈ pool, e ∈ rt.allContacts)
    (hdist : ∀ e ∈ pool, Nat.dist (rt.getBucketIndex e.id) k < i) :
    ((collectStep1 rt.buckets k count i pool).map Contact.id).Nodup
    ∧ (∀ e ∈ collectStep1 rt.buckets k count i pool, e ∈ rt.allContacts)
    ∧ (∀ e ∈ collectStep1 rt.buckets k count i pool,
        Nat.dist (rt.getBucketIndex e.id) k ≤ i)
    ∧ (∀ e ∈ collectStep1 rt.buckets k count i pool,
        rt.getBucketIndex e.id ≠ k + i) := by
  unfold collectStep1
  by_cases hik : i ≤ k
  · rw [if_pos hik]
    have hjL : k - i < 160 := by omega
    have hnotL : ∀ e ∈ pool, rt.getBucketIndex e.id ≠ k - i := by
      intro e he heq
      have hd := hdist e he
      rw [heq] at hd
      simp [Nat.dist] at hd
      omega
    obtain ⟨h1, h2, h3⟩ :=
      pool_extend hWF hjL (count - pool.length) hnd hmem hnotL
    refine ⟨h1, h2, ?_, ?_⟩
    · intro e he
      rcases h3 e he with he2 | he2
      · exact Nat.le_of_lt (hdist e he2)
      · rw [he2]; simp [Nat.dist]; omega
    · intro e he heq
      rcases h3 e he with he2 | he2
      · have hd := hdist e he2
        rw [heq] at hd
        simp [Nat.dist] at hd
      · rw [heq] at he2; omega
  · rw [if_neg hik]
    refine ⟨hnd, hmem, ?_, ?_⟩
    · exact fun e he => Nat.le_of_lt (hdist e he)
    · intro e he heq
      have hd := hdist e he
      rw [heq] at hd
      simp [Nat.dist] at hd

theorem step2_inv {rt : RoutingTable} (hWF : WFTable rt) {k : Nat}
    (hk : k < 160) (count : Nat) {i : Nat} (hi : 1 ≤ i)
    {pool : List Contact}
    (hnd : (pool.map Contact.id).Nodup)
    (hmem : ∀ e ∈ pool, e ∈ rt.allContacts)
    (hdist : ∀ e ∈ pool, Nat.dist (rt.getBucketIndex e.id) k ≤ i)
    (hnotR : ∀ e ∈ pool, rt.getBucketIndex e.id ≠ k + i) :
    ((collectStep2 rt.buckets k count i pool).map Contact.id).Nodup
    ∧ (∀ e ∈ collectStep2 rt.buckets k count i pool, e ∈ rt.allContacts)
    ∧ (∀ e ∈ collectStep2 rt.buckets k count i pool,
        Nat.dist (rt.getBucketIndex e.id) k ≤ i) := by
  unfold collectStep2
  by_cases hcond : k + i < 160 ∧ pool.length < count
  · rw [if_pos hcond]
    obtain ⟨h1, h2, h3⟩ :=
      pool_extend hWF hcond.1 (count - pool.length) hnd hmem hnotR
    refine ⟨h1, h2, ?_⟩
    intro e he
    rcases h3 e he with he2 | he2
    · exact hdist e he2
    · rw [he2]; simp [Nat.dist]
  · rw [if_neg hcond]
    exact ⟨hnd, hmem, hdist⟩

theorem collectLoop_inv {rt : RoutingTable} (hWF : WFTable rt)
    {k : Nat} (hk : k < 160) (count : Nat) :
    ∀ (fuel i : Nat) (pool : List Contact), 1 ≤ i →
      (pool.map Contact.id).Nodup →
      (∀ e ∈ pool, e ∈ rt.allContacts) →
      (∀ e ∈ pool, Nat.dist (rt.getBucketIndex e.id) k < i) →
      ((collectLoop rt.buckets k count fuel i pool).map Contact.id).Nodup
      ∧ ∀ e ∈ collectLoop rt.buckets k count fuel i pool,
          e ∈ rt.allContacts := by
  intro fuel
  induction fuel with
  | zero => intro i pool _ hnd hmem _; exact ⟨hnd, hmem⟩
  | succ fuel ih =>
    intro i pool hi hnd hmem hdist
    by_cases hguard : pool.length < count ∧ (i ≤ k ∨ k + i < 160)
    · rw [collectLoop, if_pos hguard]
      obtain ⟨s1nd, s1mem, s1dist, s1not⟩ :=
        step1_inv hWF hk count hi hnd hmem hdist
      obtain ⟨s2nd, s2mem, s2dist⟩ :=
        step2_inv hWF hk count hi s1nd s1mem s1dist s1not
      exact ih (i + 1) _ (by omega) s2nd s2mem
        (fun e he => Nat.lt_succ_of_le (s2dist e he))
    · rw [collectLoop, if_neg hguard]
      exact ⟨hnd, hmem⟩

theorem allContacts_valid {rt : RoutingTable} (hWF : WFTable rt) :
    ∀ e ∈ rt.allContacts, isNodeID e.id := by
  intro e he
  rcases List.mem_flatMap.mp he with ⟨kb, hkb, he2⟩
  exact hWF.idsValid kb hkb e he2

theorem allContacts_length (rt : RoutingTable) :
    rt.allContacts.length = rt.Size := by
  unfold RoutingTable.allContacts RoutingTable.Size KBucket.Size
  rw [List.length_flatMap]
  rfl

theorem distLe_total (target : NodeID) (a b : Contact) :
    distLe target a b ∨ distLe target b a := by
  unfold distLe
  by_cases h : lessThan (NodeID.Distance b.id target)
      (NodeID.Distance a.id target) = true
  · right
    rw [lessThan_asymm h]
    simp
  · left; exact h

theorem distance_length_20 {target : NodeID} (ht : isNodeID target)
    {a : NodeID} (ha : isNodeID a) :
    (NodeID.Distance a target).length = 20 := by
  rw [Distance_length, ha.1, ht.1]
  exact Nat.min_self 20

theorem distLe_iff {target : NodeID} (ht : isNodeID target) {a b : Contact}
    (ha : isNodeID a.id) (hb : isNodeID b.id) :
    distLe target a b ↔
      toNat (NodeID.Distance a.id target)
        ≤ toNat (NodeID.Distance b.id target) := by
  unfold distLe
  rw [lessThan_iff_toNat_lt
    (by rw [distance_length_20 ht hb, distance_length_20 ht ha])
    (Distance_bytes_lt hb.2 ht.2) (Distance_bytes_lt ha.2 ht.2)]
  exact not_lt

/-- C1 (shared core): on any well-formed table, `GetClosestContacts`
returns a pool-sorted, id-distinct, size-bounded list. -/
theorem getClosestContacts_spec_of_WF {rt : RoutingTable} (hWF : WFTable rt)
    {target : NodeID} (hT : isNodeID target) (count : Nat) :
    List.Pairwise (fun a b =>
        toNat (NodeID.Distance a.id target)
          ≤ toNat (NodeID.Distance b.id target))
      (rt.GetClosestContacts target count)
    ∧ ((rt.GetClosestContacts target count).map Contact.id).Nodup
    ∧ (rt.GetClosestContacts target count).length ≤ min count rt.Size := by
  have hk : rt.getBucketIndex target < 160 :=
    getBucketIndex_lt rt target hWF.localValid.1 hT.1
  have hpool0nd := chunk_nodup hWF hk count
  have hpool0mem := chunk_mem hWF hk count
  have hpool0dist : ∀ e ∈ (rt.buckets.getD (rt.getBucketIndex target)
      (NewKBucket 0)).GetContacts count,
      Nat.dist (rt.getBucketIndex e.id) (rt.getBucketIndex target) < 1 := by
    intro e he
    rw [chunk_placed hWF hk count e he]
    simp [Nat.dist]
  obtain ⟨hpoolnd, hpoolmem⟩ := collectLoop_inv hWF hk count 160 1
    ((rt.buckets.getD (rt.getBucketIndex target) (NewKBucket 0)).GetContacts
      count)
    (by omega) hpool0nd hpool0mem hpool0dist
  have hGCC : rt.GetClosestContacts target count
      = ((collectLoop rt.buckets (rt.getBucketIndex target) count 160 1
          ((rt.buckets.getD (rt.getBucketIndex target)
            (NewKBucket 0)).GetContacts count)).insertionSort
          (distLe target)).take count := rfl
  set pool := collectLoop rt.buckets (rt.getBucketIndex target) count 160 1
    ((rt.buckets.getD (rt.getBucketIndex target) (NewKBucket 0)).GetContacts
      count) with hpooldef
  have hvalid : ∀ e ∈ pool, isNodeID e.id :=
    fun e he => allContacts_valid hWF e (hpoolmem e he)
  have hperm : (pool.insertionSort (distLe target)).Perm pool :=
    List.perm_insertionSort (distLe target) pool
  have hmemsort : ∀ e ∈ pool.insertionSort (distLe target), e ∈ pool :=
    fun e he => hperm.mem_iff.mp he
  refine ⟨?_, ?_, ?_⟩
  · rw [hGCC]
    have hsorted : List.Pairwise (distLe target)
        (pool.insertionSort (distLe target)) := by
      refine sorted_insertionSort_mem pool ?_ ?_
      · exact fun a _ b _ => distLe_total target a b
      · intro a haM b hbM c hcM hab hbc
        rw [distLe_iff hT (hvalid a haM) (hvalid b hbM)] at hab
        rw [distLe_iff hT (hvalid b hbM) (hvalid c hcM)] at hbc
        rw [distLe_iff hT (hvalid a haM) (hvalid c hcM)]
        omega
    have hsorted2 : List.Pairwise (fun a b =>
        toNat (NodeID.Distance a.id target)
          ≤ toNat (NodeID.Distance b.id target))
        (pool.insertionSort (distLe target)) := by
      refine List.Pairwise.imp_of_mem ?_ hsorted
      intro a b haM hbM hab
      exact (distLe_iff hT (hvalid a (hmemsort a haM))
        (hvalid b (hmemsort b hbM))).mp hab
    exact List.Pairwise.sublist (List.take_sublist ..) hsorted2
  · rw [hGCC]
    have hnd2 : ((pool.insertionSort (distLe target)).map Contact.id).Nodup :=
      ((hperm.map Contact.id).nodup_iff).mpr hpoolnd
    exact (((List.take_sublist count _).map Contact.id).nodup) hnd2
  · rw [hGCC]
    refine Nat.le_min.mpr ⟨?_, ?_⟩
    · rw [List.length_take]
      exact Nat.min_le_left ..
    · have h1 : ((pool.insertionSort (distLe target)).take count).length
          ≤ pool.length := by
        rw [List.length_take, hperm.length_eq]
        exact Nat.min_le_right ..
      have h2 : pool.length ≤ rt.allContacts.length :=
        (List.subperm_of_subset (List.Nodup.of_map Contact.id hpoolnd)
          hpoolmem).length_le
      rw [allContacts_length] at h2
      omega

/-- C1: For every routing table reachable by a sequence of `AddContact`
and `GetClosestContacts` operations from a fresh table, every target
NodeID and every count, `GetClosestContacts target count` returns a
sequence of contacts sorted by non-decreasing XOR distance to the target
(the byte-lexicographic order of distances coincides with their unsigned
big-endian integer order, stated here via `toNat`), containing no two
contacts with the same NodeID, of length at most
`min count (table.Size)`. -/
theorem getClosestContacts_sorted_nodup_length
    (localID : NodeID) (hL : isNodeID localID) (now0 : Nat)
    (ops : List TableOp) (hops : ∀ op ∈ ops, opValid op)
    (target : NodeID) (hT : isNodeID target) (count : Nat) :
    List.Pairwise (fun a b =>
        toNat (NodeID.Distance a.id target)
          ≤ toNat (NodeID.Distance b.id target))
      ((applyOps (NewRoutingTable localID now0) ops).GetClosestContacts
        target count)
    ∧ (((applyOps (NewRoutingTable localID now0) ops).GetClosestContacts
        target count).map Contact.id).Nodup
    ∧ ((applyOps (NewRoutingTable localID now0) ops).GetClosestContacts
        target count).length
      ≤ min count (applyOps (NewRoutingTable localID now0) ops).Size :=
  getClosestContacts_spec_of_WF
    (WFTable_applyOps hops (WFTable_new hL now0)) hT count

/-! ### Claim C2: `getBucketIndex` and the highest set bit -/

theorem eq_of_distance_zero {a b : NodeID} (hlen : a.length = b.length)
    (h : ∀ x ∈ NodeID.Distance a b, x = 0) : a = b := by
  induction a generalizing b with
  | nil =>
    cases b with
    | nil => rfl
    | cons _ _ => simp at hlen
  | cons x xs ih =>
    cases b with
    | nil => simp at hlen
    | cons y ys =>
      have hhead : x ^^^ y = 0 := h (x ^^^ y) (by simp [NodeID.Distance])
      have hxy : x = y := Nat.xor_eq_zero.mp hhead
      have htail : xs = ys := by
        refine ih (by simpa using hlen) ?_
        intro u hu
        exact h u (List.mem_cons_of_mem _ hu)
      rw [hxy, htail]

/-- C2: For a local ID `L` and candidate `C`, `getBucketIndex C` is the
position, counting from 0 at the most significant bit, of the highest set
bit of `Distance L C` (the bit there is set and every more significant bit
is clear); for `C = L` it is 159.  In particular, with `L` the 20 zero
bytes, the ID `0x80` followed by 19 zero bytes maps to bucket 0, and the
ID of 19 zero bytes followed by `0x01` maps to bucket 159. -/
theorem getBucketIndex_highest_bit (rt : RoutingTable) (C : NodeID)
    (hl : isNodeID rt.localID) (hc : isNodeID C) :
    (C ≠ rt.localID →
       bitAtMSB (NodeID.Distance rt.localID C) (rt.getBucketIndex C) = true
       ∧ ∀ j < rt.getBucketIndex C,
           bitAtMSB (NodeID.Distance rt.localID C) j = false)
    ∧ (C = rt.localID → rt.getBucketIndex C = 159)
    ∧ sampleTable.getBucketIndex oneBitID = 0
    ∧ sampleTable.getBucketIndex lastBitID = 159 := by
  refine ⟨?_, fun h => getBucketIndex_self rt C h, by decide, by decide⟩
  intro hne
  have hd : ∀ x ∈ NodeID.Distance rt.localID C, x < 256 :=
    Distance_bytes_lt hl.2 hc.2
  unfold RoutingTable.getBucketIndex
  cases h : firstSetBitAux (NodeID.Distance rt.localID C) 0 with
  | some k =>
    obtain ⟨h1, h2⟩ := firstSetBit_some_spec hd h
    exact ⟨h1, h2⟩
  | none =>
    exfalso
    exact hne (eq_of_distance_zero (by rw [hc.1, hl.1])
      (firstSetBit_none_spec (Distance_bytes_lt hc.2 hl.2)
        (by rw [Distance_comm]; exact h)))

/-! ### Claim C3: the bucket-placement invariant -/

theorem applyOp_localID (rt : RoutingTable) (op : TableOp) :
    (applyOp rt op).localID = rt.localID := by
  cases op with
  | add c now => rfl
  | closest _ _ => rfl

theorem applyOps_localID (ops : List TableOp) :
    ∀ rt : RoutingTable, (applyOps rt ops).localID = rt.localID := by
  induction ops with
  | nil => intro rt; rfl
  | cons op ops2 ih =>
    intro rt
    show (applyOps (applyOp rt op) ops2).localID = rt.localID
    rw [ih (applyOp rt op), applyOp_localID]

/-- C3 (amended): in every table reachable from a fresh one, a contact in
the bucket at index `i` whose NodeID differs from the local ID has the
highest set bit of its distance to the local ID at position `i`; a contact
whose NodeID equals the local ID (the degenerate self case) sits in bucket
159 with an all-zero distance. -/
theorem bucket_invariant_amended
    (localID : NodeID) (hL : isNodeID localID) (now0 : Nat)
    (ops : List TableOp) (hops : ∀ op ∈ ops, opValid op) :
    ∀ i, (hi : i < (applyOps (NewRoutingTable localID now0) ops).buckets.length) →
      ∀ c ∈ ((applyOps (NewRoutingTable localID now0) ops).buckets[i]).contacts,
        (c.id ≠ localID →
           bitAtMSB (NodeID.Distance localID c.id) i = true
           ∧ ∀ j < i, bitAtMSB (NodeID.Distance localID c.id) j = false)
        ∧ (c.id = localID → i = 159) := by
  intro i hi c hc
  have hWF : WFTable (applyOps (NewRoutingTable localID now0) ops) :=
    WFTable_applyOps hops (WFTable_new hL now0)
  have hlid : (applyOps (NewRoutingTable localID now0) ops).localID = localID :=
    applyOps_localID ops (NewRoutingTable localID now0)
  have hplaced := hWF.placed i hi c hc
  have hcid : isNodeID c.id :=
    hWF.idsValid _ (List.getElem_mem hi) c hc
  constructor
  · intro hne
    have hd : ∀ x ∈ NodeID.Distance localID c.id, x < 256 :=
      Distance_bytes_lt hL.2 hcid.2
    rw [RoutingTable.getBucketIndex, hlid] at hplaced
    revert hplaced
    cases h : firstSetBitAux (NodeID.Distance localID c.id) 0 with
    | some k =>
      intro hplaced
      obtain ⟨h1, h2⟩ := firstSetBit_some_spec hd h
      rw [← hplaced]
      exact ⟨h1, h2⟩
    | none =>
      intro hplaced
      exfalso
      exact hne ((eq_of_distance_zero (by rw [hcid.1, hL.1])
        (firstSetBit_none_spec (Distance_bytes_lt hcid.2 hL.2)
          (by rw [Distance_comm]; exact h))))
  · intro heq
    rw [← hplaced]
    have : c.id = (applyOps (NewRoutingTable localID now0) ops).localID := by
      rw [hlid]; exact heq
    exact getBucketIndex_self _ _ this

/-! ### Claim C7: refresh-ID generation round trip -/

set_option maxRecDepth 100000 in
theorem bitAt_pow : ∀ r, r < 8 → ∀ j, j < 8 →
    bitAt (2 ^ (7 - r)) j = decide (j = r) := by
  decide

theorem distance_set_flip {L : NodeID} (hL : L.length = 20) {q : Nat}
    (hq : q < 20) (m : Nat) :
    NodeID.Distance L (L.set q ((L.getD q 0) ^^^ m))
      = (List.replicate 20 0).set q m := by
  unfold NodeID.Distance
  have hlen1 : (List.zipWith (fun a b => a ^^^ b) L
      (L.set q ((L.getD q 0) ^^^ m))).length = 20 := by
    rw [List.length_zipWith, List.length_set, hL]
    simp
  have hlen2 : ((List.replicate 20 0).set q m).length = 20 := by simp
  apply List.ext_getElem (by rw [hlen1, hlen2])
  intro p hp1 hp2
  have hp : p < 20 := by rw [← hlen1]; exact hp1
  have hpL : p < L.length := by rw [hL]; exact hp
  rw [List.getElem_zipWith, List.getElem_set, List.getElem_set]
  by_cases hqp : q = p
  · rw [if_pos hqp, if_pos hqp]
    subst hqp
    have hgd : L.getD q 0 = L[q] :=
      List.getD_eq_getElem L 0 (by rw [hL]; exact hq)
    simp only [hgd]
    rw [← Nat.xor_assoc, Nat.xor_self, Nat.zero_xor]
  · rw [if_neg hqp, if_neg hqp, Nat.xor_self]
    exact (List.getElem_replicate ..).symm

theorem firstSetBitAux_replicate_set {m r : Nat}
    (hm : byteFirstBit m = some r) :
    ∀ (len q : Nat), q < len → ∀ s,
      firstSetBitAux ((List.replicate len 0).set q m) s
        = some ((s + q) * 8 + r) := by
  intro len q
  induction q generalizing len with
  | zero =>
    intro hq s
    cases len with
    | zero => omega
    | succ len2 =>
      show firstSetBitAux (m :: List.replicate len2 0) s = _
      simp only [firstSetBitAux, hm]
      congr 1
  | succ q ih =>
    intro hq s
    cases len with
    | zero => omega
    | succ len2 =>
      show firstSetBitAux (0 :: (List.replicate len2 0).set q m) s = _
      simp only [firstSetBitAux, byteFirstBit_zero]
      rw [ih len2 (by omega) (s + 1)]
      congr 1
      omega

/-- C7: for every local ID and bucket index `i < 160`,
`GetRandomIDFromBucket i` is the local ID with exactly bit `i` flipped
(the distance to the local ID has bit `i` set and no other bit among the
160), and `getBucketIndex` of the result is `i`. -/
theorem getRandomIDFromBucket_round_trip (rt : RoutingTable)
    (hL : isNodeID rt.localID) {i : Nat} (hi : i < 160) :
    (∀ k, k < 160 →
       bitAtMSB (NodeID.Distance rt.localID (rt.GetRandomIDFromBucket i)) k
         = decide (k = i))
    ∧ rt.getBucketIndex (rt.GetRandomIDFromBucket i) = i := by
  have hq : i / 8 < 20 := by omega
  have hr : i % 8 < 8 := Nat.mod_lt _ (by omega)
  have hmask : (1 <<< (7 - i % 8)) % 256 = 2 ^ (7 - i % 8) := by
    rw [Nat.shiftLeft_eq, one_mul]
    apply Nat.mod_eq_of_lt
    have h7 : (7 : Nat) - i % 8 ≤ 7 := by omega
    calc 2 ^ (7 - i % 8) ≤ 2 ^ 7 := Nat.pow_le_pow_right (by omega) h7
      _ < 256 := by omega
  have hrid : rt.GetRandomIDFromBucket i
      = rt.localID.set (i / 8)
          ((rt.localID.getD (i / 8) 0) ^^^ 2 ^ (7 - i % 8)) := by
    show rt.localID.set (i / 8)
        ((rt.localID.getD (i / 8) 0) ^^^ ((1 <<< (7 - i % 8)) % 256)) = _
    rw [hmask]
  have hdist : NodeID.Distance rt.localID (rt.GetRandomIDFromBucket i)
      = (List.replicate 20 0).set (i / 8) (2 ^ (7 - i % 8)) := by
    rw [hrid]
    exact distance_set_flip hL.1 hq _
  have hbfb : byteFirstBit (2 ^ (7 - i % 8)) = some (i % 8) := by
    have hb := byteFirstBit_pow hr
    rw [hmask] at hb
    exact hb
  constructor
  · intro k hk
    rw [hdist]
    unfold bitAtMSB
    have hk8 : k / 8 < 20 := by omega
    have hgd : ((List.replicate 20 0).set (i / 8) (2 ^ (7 - i % 8))).getD
        (k / 8) 0
        = if i / 8 = k / 8 then 2 ^ (7 - i % 8) else 0 := by
      rw [List.getD_eq_getElem _ _ (by simp [hk8] : k / 8
        < ((List.replicate 20 0).set (i / 8) (2 ^ (7 - i % 8))).length)]
      rw [List.getElem_set]
      split
      · rfl
      · exact List.getElem_replicate ..
    rw [hgd]
    by_cases hqq : i / 8 = k / 8
    · rw [if_pos hqq]
      rw [bitAt_pow (i % 8) hr (k % 8) (Nat.mod_lt _ (by omega))]
      by_cases heq : k = i
      · subst heq; simp
      · have hne8 : ¬ k % 8 = i % 8 := by omega
        simp [hne8, heq]
    · rw [if_neg hqq, bitAt_zero]
      have hne : ¬ k = i := by omega
      simp [hne]
  · unfold RoutingTable.getBucketIndex
    rw [hdist, firstSetBitAux_replicate_set hbfb 20 (i / 8) hq 0]
    show (0 + i / 8) * 8 + i % 8 = i
    omega

/-! ### Claims C4, C6, C10: k-bucket insertion behavior -/

theorem eraseFirstMatch_append_no_match {l1 : List Contact} {c : Contact}
    (h : ∀ e ∈ l1, e.Equal c = false) (l2 : List Contact) :
    eraseFirstMatch (l1 ++ l2) c = l1 ++ eraseFirstMatch l2 c := by
  induction l1 with
  | nil => rfl
  | cons e es ih =>
    have he : e.Equal c = false := h e (by simp)
    show (if e.Equal c = true then es ++ l2
          else e :: eraseFirstMatch (es ++ l2) c) = _
    rw [he]
    simp only [Bool.false_eq_true, if_false]
    rw [ih (fun x hx => h x (by simp [hx]))]
    simp

/-- C4: a KBucket accepts a new NodeID exactly while it holds fewer than
`K = 20` contacts, appending at the most-recently-seen (back) end; at
`K` contacts a new NodeID is rejected with the bucket unchanged, while an
already-present NodeID is still accepted; and the size never exceeds `K`
under any sequence of `AddContact` operations from a bucket within
capacity. -/
theorem kbucket_capacity (kb : KBucket) (c : Contact) (now : Nat) :
    ((¬ ∃ e ∈ kb.contacts, e.id = c.id) → kb.Size < K →
       (kb.AddContact c now).1 = true
       ∧ (kb.AddContact c now).2.contacts = kb.contacts ++ [c])
    ∧ ((¬ ∃ e ∈ kb.contacts, e.id = c.id) → kb.Size = K →
       (kb.AddContact c now).1 = false ∧ (kb.AddContact c now).2 = kb)
    ∧ ((∃ e ∈ kb.contacts, e.id = c.id) → (kb.AddContact c now).1 = true)
    ∧ (∀ ops, kb.Size ≤ K → (applyBucketAdds kb ops).Size ≤ K) := by
  refine ⟨?_, ?_, ?_, ?_⟩
  · intro h hlen
    rw [addContact_of_new_room now h hlen]
    exact ⟨rfl, rfl⟩
  · intro h hlen
    have hlen2 : ¬ kb.contacts.length < K := by
      have he : kb.contacts.length = K := hlen
      omega
    rw [addContact_of_new_full now h hlen2]
    exact ⟨rfl, rfl⟩
  · intro h
    rw [addContact_of_mem now h]
  · intro ops h
    exact applyBucketAdds_size_le ops kb h

theorem no_match_dropLast {kb : KBucket} {c : Contact}
    (hnd : (kb.contacts.map Contact.id).Nodup)
    (hstruct : kb.contacts.dropLast ++ [c] = kb.contacts) :
    ∀ e ∈ kb.contacts.dropLast, e.Equal c = false := by
  have hnd2 : ((kb.contacts.dropLast ++ [c]).map Contact.id).Nodup := by
    rw [hstruct]; exact hnd
  rw [List.map_append] at hnd2
  have hdisj := List.disjoint_of_nodup_append hnd2
  intro e he
  cases h : e.Equal c with
  | false => rfl
  | true =>
    exfalso
    have hid : e.id = c.id := by simpa [Contact.Equal] using h
    exact hdisj (List.mem_map.mpr ⟨e, he, rfl⟩)
      (by simp [← hid])

/-- C6: refreshing an already-present NodeID is accepted, keeps the
bucket's size, moves the entry for that NodeID to the most-recently-seen
(back) position — a no-op on ordering when it is already there — with the
stored entry (timestamp included) becoming the given contact, and leaves
the entries with other NodeIDs unchanged, in order. -/
theorem kbucket_refresh (kb : KBucket) (c : Contact) (now : Nat)
    (hmem : ∃ e ∈ kb.contacts, e.id = c.id)
    (hnd : (kb.contacts.map Contact.id).Nodup) :
    (kb.AddContact c now).1 = true
    ∧ (kb.AddContact c now).2.Size = kb.Size
    ∧ (kb.AddContact c now).2.contacts.getLast? = some c
    ∧ (kb.AddContact c now).2.contacts.filter (fun e => !(e.Equal c))
        = kb.contacts.filter (fun e => !(e.Equal c))
    ∧ (kb.contacts.getLast? = some c →
        (kb.AddContact c now).2.contacts = kb.contacts) := by
  rw [addContact_of_mem now hmem]
  refine ⟨rfl, ?_, ?_, ?_, ?_⟩
  · show (eraseFirstMatch kb.contacts c ++ [c]).length = kb.contacts.length
    rw [List.length_append]
    have hel := eraseFirstMatch_length hmem
    simp only [List.length_cons, List.length_nil]
    omega
  · exact List.getLast?_concat _
  · show (eraseFirstMatch kb.contacts c ++ [c]).filter (fun e => !(e.Equal c))
        = _
    rw [List.filter_append]
    have h1 : List.filter (fun e => !(e.Equal c)) [c] = [] := by
      simp [Contact.Equal]
    rw [h1, List.append_nil]
    exact eraseFirstMatch_filter_ne kb.contacts c
  · intro hlast
    have hne : kb.contacts ≠ [] := by
      intro h0; rw [h0] at hlast; simp at hlast
    have hgl : kb.contacts.getLast hne = c := by
      have hq := List.getLast?_eq_getLast kb.contacts hne
      rw [hq] at hlast
      simpa using hlast
    have hstruct : kb.contacts.dropLast ++ [c] = kb.contacts := by
      rw [← hgl]; exact List.dropLast_append_getLast hne
    have hnom := no_match_dropLast hnd hstruct
    show eraseFirstMatch kb.contacts c ++ [c] = kb.contacts
    rw [← hstruct, eraseFirstMatch_append_no_match hnom]
    simp [eraseFirstMatch, Contact.Equal]

/-- C10: when `AddContact` is given a contact whose NodeID is already in
the bucket, the stored element is replaced wholesale — afterwards the only
entry with that NodeID is the given contact itself, so the stored Address
and LastSeen are the new contact's values — while the size and the entries
with other NodeIDs are unchanged. -/
theorem kbucket_update_replaces_wholesale (kb : KBucket) (c : Contact)
    (now : Nat)
    (hmem : ∃ e ∈ kb.contacts, e.id = c.id)
    (hnd : (kb.contacts.map Contact.id).Nodup) :
    (kb.AddContact c now).2.contacts.filter (fun e => e.Equal c) = [c]
    ∧ (kb.AddContact c now).2.Size = kb.Size
    ∧ (kb.AddContact c now).2.contacts.filter (fun e => !(e.Equal c))
        = kb.contacts.filter (fun e => !(e.Equal c)) := by
  rw [addContact_of_mem now hmem]
  refine ⟨?_, ?_, ?_⟩
  · show (eraseFirstMatch kb.contacts c ++ [c]).filter (fun e => e.Equal c)
        = [c]
    rw [List.filter_append]
    have h1 : (eraseFirstMatch kb.contacts c).filter (fun e => e.Equal c)
        = [] := by
      rw [List.filter_eq_nil_iff]
      intro e he heq
      have hid : e.id = c.id := by simpa [Contact.Equal] using heq
      exact id_not_mem_eraseFirstMatch hnd
        (List.mem_map.mpr ⟨e, he, hid⟩)
    rw [h1]
    simp [Contact.Equal]
  · show (eraseFirstMatch kb.contacts c ++ [c]).length = kb.contacts.length
    rw [List.length_append]
    have hel := eraseFirstMatch_length hmem
    simp only [List.length_cons, List.length_nil]
    omega
  · show (eraseFirstMatch kb.contacts c ++ [c]).filter (fun e => !(e.Equal c))
        = _
    rw [List.filter_append]
    have h1 : List.filter (fun e => !(e.Equal c)) [c] = [] := by
      simp [Contact.Equal]
    rw [h1, List.append_nil]
    exact eraseFirstMatch_filter_ne kb.contacts c

/-! ### Claim C8: metric properties of the XOR distance -/

/-- C8: the XOR distance (a pure total function of its two arguments) is
commutative, sends equal arguments to the all-zero 20-byte NodeID, and
satisfies the triangle inequality when distances are read as unsigned
big-endian integers. -/
theorem distance_metric (a b c : NodeID)
    (ha : isNodeID a) (hb : isNodeID b) (hc : isNodeID c) :
    NodeID.Distance a b = NodeID.Distance b a
    ∧ NodeID.Distance a a = List.replicate 20 0
    ∧ toNat (NodeID.Distance a c)
        ≤ toNat (NodeID.Distance a b) + toNat (NodeID.Distance b c) := by
  refine ⟨Distance_comm a b, ?_, ?_⟩
  · rw [Distance_self, ha.1]
  · rw [Distance_decompose a b c (by rw [ha.1, hb.1]) (by rw [hb.1, hc.1])]
    exact toNat_zipWith_xor_le _ _
      (by rw [distance_length_20 hb ha, distance_length_20 hc hb])

/-! ### Claim C9: the FindNode handler on malformed targets -/

/-- C9 (amended): a request to the FindNode handler whose target
parameter is missing (empty) is answered with HTTP 400; one whose target
is not valid hex or decodes to fewer than 20 bytes is also answered with
HTTP 400, provided its decode completes without writing past the 20-byte
target buffer; a malformed target whose decode does overflow the buffer
(21 or more leading valid hex digit pairs) instead makes `hex.Decode`
panic inside the handler, so no 400 is sent; in every case the routing
table is unchanged by the request. -/
theorem handleFindNode_malformed (rt : RoutingTable) (s : String) :
    (s = "" →
      (handleFindNode rt s).1
        = HandlerResult.clientError 400 ("Missing target parameter"))
    ∧ ((s ≠ "" ∧ ∃ bytes err, hexDecodeAux 20 s.toList [] = .decoded bytes err
          ∧ (err = true ∨ bytes.length < 20)) →
        (handleFindNode rt s).1
          = HandlerResult.clientError 400 ("Invalid target ID"))
    ∧ (s ≠ "" → hexDecodeAux 20 s.toList [] = .panicked →
        (handleFindNode rt s).1 = HandlerResult.panicked)
    ∧ (handleFindNode rt s).2 = rt := by
  refine ⟨?_, ?_, ?_, ?_⟩
  · intro hs
    unfold handleFindNode
    rw [if_pos hs]
  · rintro ⟨hs, bytes, err, hdec, hbad⟩
    unfold handleFindNode
    rw [if_neg hs]
    have hcond : err = true ∨ bytes.length ≠ 20 := by
      rcases hbad with h1 | h1
      · exact Or.inl h1
      · exact Or.inr (by omega)
    simp only [hdec]
    rw [if_pos hcond]
  · intro hs hpanic
    unfold handleFindNode
    rw [if_neg hs]
    simp only [hpanic]
  · unfold handleFindNode
    by_cases hs : s = ""
    · rw [if_pos hs]
    · rw [if_neg hs]
      cases hdec : hexDecodeAux 20 s.toList [] with
      | panicked => simp only [hdec]
      | decoded bytes err =>
        simp only [hdec]
        split
        · rfl
        · rfl

/-! ### Claim C5: the error behavior of `FindNode` -/

theorem step1_ne_nil {buckets : List KBucket} {k count i : Nat}
    {pool : List Contact} (h : pool ≠ []) :
    collectStep1 buckets k count i pool ≠ [] := by
  unfold collectStep1
  split
  · intro hcontra
    exact h (List.append_eq_nil.mp hcontra).1
  · exact h

theorem step2_ne_nil {buckets : List KBucket} {k count i : Nat}
    {pool : List Contact} (h : pool ≠ []) :
    collectStep2 buckets k count i pool ≠ [] := by
  unfold collectStep2
  split
  · intro hcontra
    exact h (List.append_eq_nil.mp hcontra).1
  · exact h

theorem collectLoop_ne_nil {buckets : List KBucket} {k count : Nat} :
    ∀ (fuel i : Nat) (pool : List Contact), pool ≠ [] →
      collectLoop buckets k count fuel i pool ≠ [] := by
  intro fuel
  induction fuel with
  | zero => intro i pool h; exact h
  | succ fuel ih =>
    intro i pool h
    by_cases hguard : pool.length < count ∧ (i ≤ k ∨ k + i < 160)
    · rw [collectLoop, if_pos hguard]
      exact ih (i + 1) _ (step2_ne_nil (step1_ne_nil h))
    · rw [collectLoop, if_neg hguard]
      exact h

theorem take_ne_nil_of {l : List Contact} {n : Nat} (hn : 0 < n)
    (hl : l ≠ []) : l.take n ≠ [] := by
  intro hcontra
  rw [List.take_eq_nil_iff] at hcontra
  rcases hcontra with h | h
  · omega
  · exact hl h

theorem collectLoop_hits {buckets : List KBucket} {k count : Nat}
    (hcount : 0 < count) {j : Nat} (hj160 : j < 160)
    (hbucket : (buckets.getD j (NewKBucket 0)).contacts ≠ [])
    (hjk : j ≠ k) :
    ∀ (fuel i : Nat) (pool : List Contact), 1 ≤ i → i ≤ Nat.dist j k →
      Nat.dist j k < i + fuel →
      collectLoop buckets k count fuel i pool ≠ [] := by
  intro fuel
  induction fuel with
  | zero => intro i pool _ h1 h2; omega
  | succ fuel ih =>
    intro i pool hi hle hlt
    by_cases hpool : pool = []
    case neg => exact collectLoop_ne_nil (fuel + 1) i pool hpool
    subst hpool
    have hd : Nat.dist j k = (j - k) + (k - j) := rfl
    have hguard : ([] : List Contact).length < count ∧
        (i ≤ k ∨ k + i < 160) := by
      refine ⟨by simpa using hcount, ?_⟩
      rcases Nat.lt_or_ge j k with hjlt | hjge
      · left; omega
      · right; omega
    rw [collectLoop, if_pos hguard]
    by_cases hstep : i = Nat.dist j k
    · apply collectLoop_ne_nil
      rcases Nat.lt_or_ge j k with hjlt | hjge
      · have hik : i ≤ k := by omega
        have hkij : k - i = j := by omega
        have hs1 : collectStep1 buckets k count i [] ≠ [] := by
          unfold collectStep1
          rw [if_pos hik, hkij]
          simp only [List.nil_append, KBucket.GetContacts]
          exact take_ne_nil_of (by simpa using hcount) hbucket
        exact step2_ne_nil hs1
      · have hjgt : k < j := by omega
        have hki : k + i = j := by omega
        by_cases hs1 : collectStep1 buckets k count i [] = []
        · rw [hs1]
          unfold collectStep2
          rw [if_pos ⟨by omega, by simpa using hcount⟩, hki]
          simp only [List.nil_append, KBucket.GetContacts]
          exact take_ne_nil_of (by simpa using hcount) hbucket
        · exact step2_ne_nil hs1
    · exact ih (i + 1) _ (by omega) (by omega) (by omega)

theorem buckets_empty_of_size_zero {rt : RoutingTable} (h : rt.Size = 0) :
    ∀ j, (rt.buckets.getD j (NewKBucket 0)).contacts = [] := by
  intro j
  by_cases hj : j < rt.buckets.length
  · rw [List.getD_eq_getElem _ _ hj]
    have hz : rt.buckets[j].Size = 0 := by
      have hsum : ∀ x ∈ rt.buckets.map KBucket.Size, x = 0 :=
        List.sum_eq_zero_iff.mp h
      exact hsum _ (List.mem_map.mpr ⟨rt.buckets[j], List.getElem_mem hj, rfl⟩)
    exact List.length_eq_zero.mp hz
  · rw [List.getD_eq_default _ _ (by omega)]
    rfl

theorem collectLoop_empty_of_empty {buckets : List KBucket}
    (hempty : ∀ j, (buckets.getD j (NewKBucket 0)).contacts = [])
    (k count : Nat) :
    ∀ (fuel i : Nat), collectLoop buckets k count fuel i [] = [] := by
  intro fuel
  induction fuel with
  | zero => intro i; rfl
  | succ fuel ih =>
    intro i
    have hchunk : ∀ (j m : Nat),
        (buckets.getD j (NewKBucket 0)).GetContacts m = [] := by
      intro j m
      unfold KBucket.GetContacts
      rw [hempty j]
      exact List.take_nil
    have hs1 : collectStep1 buckets k count i [] = [] := by
      unfold collectStep1
      split
      · rw [hchunk]; simp
      · rfl
    have hs2 : collectStep2 buckets k count i [] = [] := by
      unfold collectStep2
      split
      · rw [hchunk]; simp
      · rfl
    by_cases hguard : ([] : List Contact).length < count ∧
        (i ≤ k ∨ k + i < 160)
    · rw [collectLoop, if_pos hguard, hs1, hs2]
      exact ih (i + 1)
    · rw [collectLoop, if_neg hguard]

theorem getClosestContacts_nil_iff {rt : RoutingTable} (hWF : WFTable rt)
    {target : NodeID} (hT : isNodeID target) {count : Nat}
    (hcount : 0 < count) :
    rt.GetClosestContacts target count = [] ↔ rt.Size = 0 := by
  have hGCC : rt.GetClosestContacts target count
      = ((collectLoop rt.buckets (rt.getBucketIndex target) count 160 1
          ((rt.buckets.getD (rt.getBucketIndex target)
            (NewKBucket 0)).GetContacts count)).insertionSort
          (distLe target)).take count := rfl
  constructor
  · intro hempty
    by_contra hsz
    obtain ⟨j, hj, hne⟩ : ∃ j, ∃ h : j < rt.buckets.length,
        (rt.buckets.get ⟨j, h⟩).contacts ≠ [] := by
      by_contra hall
      push_neg at hall
      apply hsz
      unfold RoutingTable.Size
      rw [List.sum_eq_zero_iff]
      intro x hx
      rcases List.mem_map.mp hx with ⟨kb, hkb, rfl⟩
      rcases List.mem_iff_getElem.mp hkb with ⟨j, hjl, rfl⟩
      exact List.length_eq_zero.mpr (by simpa using hall j hjl)
    have hne2 : rt.buckets[j].contacts ≠ [] := by simpa using hne
    have hj160 : j < 160 := by rw [← hWF.bucketsLen]; exact hj
    have hgetD : (rt.buckets.getD j (NewKBucket 0)).contacts ≠ [] := by
      rw [List.getD_eq_getElem _ _ hj]; exact hne2
    have hpoolne : collectLoop rt.buckets (rt.getBucketIndex target) count
        160 1 ((rt.buckets.getD (rt.getBucketIndex target)
          (NewKBucket 0)).GetContacts count) ≠ [] := by
      by_cases hjk : j = rt.getBucketIndex target
      · apply collectLoop_ne_nil
        rw [← hjk]
        show (rt.buckets.getD j (NewKBucket 0)).contacts.take count ≠ []
        exact take_ne_nil_of hcount hgetD
      · have hdistb : 1 ≤ Nat.dist j (rt.getBucketIndex target) := by
          have hd : Nat.dist j (rt.getBucketIndex target)
              = (j - rt.getBucketIndex target)
                + (rt.getBucketIndex target - j) := rfl
          omega
        have hk160 : rt.getBucketIndex target < 160 :=
          getBucketIndex_lt rt target hWF.localValid.1 hT.1
        have hdistub : Nat.dist j (rt.getBucketIndex target) < 1 + 160 := by
          have hd : Nat.dist j (rt.getBucketIndex target)
              = (j - rt.getBucketIndex target)
                + (rt.getBucketIndex target - j) := rfl
          omega
        exact collectLoop_hits hcount hj160 hgetD hjk 160 1 _
          (by omega) hdistb hdistub
    apply hpoolne
    rw [hGCC] at hempty
    rw [List.take_eq_nil_iff] at hempty
    rcases hempty with h0 | h0
    · omega
    · have hp := List.perm_insertionSort (distLe target)
        (collectLoop rt.buckets (rt.getBucketIndex target) count 160 1
          ((rt.buckets.getD (rt.getBucketIndex target)
            (NewKBucket 0)).GetContacts count))
      rw [h0] at hp
      exact List.nil_perm.mp hp
  · intro hsz
    have hempty := buckets_empty_of_size_zero hsz
    have hinit : (rt.buckets.getD (rt.getBucketIndex target)
        (NewKBucket 0)).GetContacts count = [] := by
      unfold KBucket.GetContacts
      rw [hempty]
      exact List.take_nil
    rw [hGCC, hinit, collectLoop_empty_of_empty hempty _ count 160 1]
    simp

/-- C5 (amended): `FindNode` returns the error
"no contacts in routing table" — before issuing any RPC — exactly when
the routing table holds no contacts at all (`Size = 0`), not merely fewer
than `Alpha = 3`; and this is the only error it ever returns (individual
RPC failures are swallowed, every other path returns nil). -/
theorem findNode_error_iff {rt : RoutingTable} (hWF : WFTable rt)
    {target : NodeID} (hT : isNodeID target) :
    (FindNodeError rt target = some ("no contacts in routing table")
      ↔ rt.Size = 0)
    ∧ (∀ msg, FindNodeError rt target = some msg →
        msg = "no contacts in routing table") := by
  have hiff := getClosestContacts_nil_iff hWF hT
    (show 0 < Alpha by decide)
  unfold FindNodeError
  refine ⟨⟨?_, ?_⟩, ?_⟩
  · intro h
    by_cases hlen : (rt.GetClosestContacts target Alpha).length = 0
    · exact hiff.mp (List.length_eq_zero.mp hlen)
    · rw [if_neg hlen] at h
      simp at h
  · intro h
    rw [if_pos (by rw [hiff.mpr h]; rfl)]
  · intro msg h
    by_cases hlen : (rt.GetClosestContacts target Alpha).length = 0
    · rw [if_pos hlen] at h
      simpa using h.symm
    · rw [if_neg hlen] at h
      simp at h

/-! ### Counterexamples and closed instances -/

set_option maxRecDepth 1000000 in
/-- C3 counterexample: inserting a contact whose NodeID equals the local
ID is a legal `AddContact`; it lands in bucket 159, yet its distance to
the local ID is all-zero, so bit 159 of the distance is not set — the
invariant as stated fails at this input. -/
theorem bucket_invariant_counterexample :
    sampleContactSelf ∈ (((applyOps sampleTable
        [TableOp.add sampleContactSelf 0]).buckets.getD 159
        (NewKBucket 0)).contacts)
    ∧ bitAtMSB (NodeID.Distance (applyOps sampleTable
        [TableOp.add sampleContactSelf 0]).localID sampleContactSelf.id)
        159 = false := by
  decide

set_option maxRecDepth 1000000 in
theorem bucket_invariant_amended_witness :
    bitAtMSB (NodeID.Distance zeroID sampleContactA.id) 0 = true := by
  have h := bucket_invariant_amended zeroID (by decide) 0
    [TableOp.add sampleContactA 0]
    (fun op hop => by
      rw [List.mem_singleton] at hop
      subst hop
      exact (by decide : isNodeID sampleContactA.id))
    0 (by decide) sampleContactA (by decide)
  exact (h.1 (by decide)).1

set_option maxRecDepth 1000000 in
/-- C5 counterexample: a table holding a single contact yields fewer than
`Alpha = 3` seed contacts, yet `FindNode` does not fail — refuting "fails
whenever fewer than ALPHA=3 seed contacts can be drawn". -/
theorem findNode_seed_counterexample :
    ((applyOps sampleTable [TableOp.add sampleContactA 0]).GetClosestContacts
        zeroID Alpha).length < Alpha
    ∧ FindNodeError (applyOps sampleTable [TableOp.add sampleContactA 0])
        zeroID = none := by
  decide

set_option maxRecDepth 1000000 in
theorem findNode_error_iff_witness :
    FindNodeError sampleTable zeroID
      = some ("no contacts in routing table") :=
  (findNode_error_iff (WFTable_new (by decide) 0) (by decide)).1.mpr
    (by decide)

set_option maxRecDepth 1000000 in
theorem getClosestContacts_witness :
    ((applyOps (NewRoutingTable zeroID 0)
        [TableOp.add sampleContactA 0]).GetClosestContacts zeroID 3).length
      ≤ min 3 (applyOps (NewRoutingTable zeroID 0)
        [TableOp.add sampleContactA 0]).Size :=
  (getClosestContacts_sorted_nodup_length zeroID (by decide) 0
    [TableOp.add sampleContactA 0]
    (fun op hop => by
      rw [List.mem_singleton] at hop
      subst hop
      exact (by decide : isNodeID sampleContactA.id))
    zeroID (by decide) 3).2.2

set_option maxRecDepth 1000000 in
theorem getBucketIndex_highest_bit_witness :
    bitAtMSB (NodeID.Distance sampleTable.localID oneBitID)
      (sampleTable.getBucketIndex oneBitID) = true :=
  ((getBucketIndex_highest_bit sampleTable oneBitID (by decide)
    (by decide)).1 (by decide)).1

theorem kbucket_capacity_witness :
    ((NewKBucket 0).AddContact sampleContactA 5).1 = true :=
  ((kbucket_capacity (NewKBucket 0) sampleContactA 5).1 (by decide)
    (by decide)).1

theorem kbucket_refresh_witness :
    (sampleBucket.AddContact sampleContactA2 7).2.contacts.getLast?
      = some sampleContactA2 :=
  (kbucket_refresh sampleBucket sampleContactA2 7 (by decide)
    (by decide)).2.2.1

set_option maxRecDepth 1000000 in
theorem getRandomIDFromBucket_witness :
    sampleTable.getBucketIndex (sampleTable.GetRandomIDFromBucket 12)
      = 12 :=
  (getRandomIDFromBucket_round_trip sampleTable (by decide)
    (show (12 : Nat) < 160 by decide)).2

theorem distance_metric_witness :
    toNat (NodeID.Distance zeroID lastBitID)
      ≤ toNat (NodeID.Distance zeroID oneBitID)
        + toNat (NodeID.Distance oneBitID lastBitID) :=
  (distance_metric zeroID oneBitID lastBitID (by decide) (by decide)
    (by decide)).2.2

set_option maxRecDepth 1000000 in
/-- C9 counterexample: a target of 42 valid hex digits followed by `'z'`
is not valid hex, yet the handler does not answer with HTTP 400:
`hex.Decode` validates the 21st digit pair and panics writing `dst[20]`
past the 20-byte target buffer before ever reaching the invalid
character. -/
theorem handleFindNode_panic_counterexample :
    fromHexChar 'z' = none
    ∧ (handleFindNode sampleTable overflowTarget).1
        = HandlerResult.panicked := by
  refine ⟨by decide, ?_⟩
  decide

theorem handleFindNode_malformed_witness :
    (handleFindNode sampleTable "abcd").1
      = HandlerResult.clientError 400 ("Invalid target ID") :=
  (handleFindNode_malformed sampleTable "abcd").2.1
    ⟨by decide, [171, 205], false, by decide, by decide⟩

theorem kbucket_wholesale_witness :
    (sampleBucket.AddContact sampleContactA2 7).2.contacts.filter
      (fun e => e.Equal sampleContactA2) = [sampleContactA2] :=
  (kbucket_update_replaces_wholesale sampleBucket sampleContactA2 7
    (by decide) (by decide)).1

end Capacitor
